import Mathlib

/-!
# tgspoil: the spoiler frame generator

A shallow embedding of `spoiler/spoiler.go` (package `spoiler`) and the properties
its specification states about it.

Modelling conventions.

* `int` is 64 bits wide.  Image dimensions, pixel coordinates, dot counts and frame
  indices of an image that fits in memory stay far below `2 ^ 63`, so integer
  arithmetic is done in `ℤ`; the integer conversion `uint8(n)` keeps its wrap
  modulo 256.
* `float64` is IEEE-754 binary64.  A finite value is the rational number it denotes,
  every arithmetic operation rounds its exact result to nearest (ties to even) and
  is rounded on its own (no fused multiply-add), and a result that is not finite
  (an infinity or a NaN) is `none`.  Signed zeros are not distinguished.
* The configuration parameters (`blurSigma`, `dotDensity`, `shimmerSpeed`,
  `darkenPercent`) are finite.
* Go leaves the conversion of a float to an integer type implementation-dependent
  when the truncated value does not fit; `math.Sin` is library code.  Both are
  fields of `Platform`, and every general statement below holds for every platform.
* The library `github.com/disintegration/imaging` is not part of the repository; the
  functions used from it (`New`, `PasteCenter`, `Blur`) are modelled by their
  documented behaviour.
* An image has bounds `(0,0)-(w,h)`, as every image produced by `imaging` has.
-/

namespace Spoiler

/-! ## float64 -/

/-- Nearest integer to `q`, a tie going to the even neighbour. -/
def roundHalfEven (q : ℚ) : ℤ :=
  if q - ⌊q⌋ < 1 / 2 then ⌊q⌋
  else if 1 / 2 < q - ⌊q⌋ then ⌊q⌋ + 1
  else if ⌊q⌋ % 2 = 0 then ⌊q⌋ else ⌊q⌋ + 1

/-- Exponent of the last mantissa bit of a binary64 value of magnitude `x`: a 53-bit
mantissa, and the fixed exponent of the subnormal range below `2 ^ (-1022)`. -/
def ulpExp (x : ℚ) : ℤ := max (Int.log 2 x) (-1022) - 52

/-- Binary64 rounding of a magnitude `x ≥ 0` (exponent unbounded above). -/
def roundMag (x : ℚ) : ℚ := roundHalfEven (x / 2 ^ ulpExp x) * 2 ^ ulpExp x

/-- Binary64 rounding to nearest, ties to even (exponent unbounded above). -/
def round64 (q : ℚ) : ℚ := if q < 0 then -roundMag (-q) else roundMag q

/-- A `float64`: `some q` is the finite value `q`, `none` is an infinity or a NaN. -/
abbrev F64 := Option ℚ

/-- The `float64` result of an operation whose exact result is `q`: rounded, and
not finite when the rounded magnitude reaches `2 ^ 1024`. -/
def F64.ofRat (q : ℚ) : F64 := if |round64 q| < 2 ^ 1024 then some (round64 q) else none

/-- The conversion `float64(n)` of an integer. -/
def F64.ofInt (n : ℤ) : F64 := F64.ofRat n

/-- Float addition `x + y`. -/
def F64.add (x y : F64) : F64 :=
  match x, y with
  | some a, some b => F64.ofRat (a + b)
  | _, _ => none

/-- Float subtraction `x - y`. -/
def F64.sub (x y : F64) : F64 :=
  match x, y with
  | some a, some b => F64.ofRat (a - b)
  | _, _ => none

/-- Float multiplication `x * y`. -/
def F64.mul (x y : F64) : F64 :=
  match x, y with
  | some a, some b => F64.ofRat (a * b)
  | _, _ => none

/-- Float division `x / y`.  Both divisors of the program are conversions of
integers, hence finite; a zero divisor gives an infinity or a NaN. -/
def F64.div (x y : F64) : F64 :=
  match x, y with
  | some a, some b => if b = 0 then none else F64.ofRat (a / b)
  | _, _ => none

/-- The constant `math.Pi` as a `float64`: `0x1.921fb54442d18p+1`. -/
def pi64 : ℚ := 7074237752028440 / 2 ^ 51

/-- Truncation toward zero, the integer part kept by a float to integer conversion. -/
def truncQ (q : ℚ) : ℤ := if 0 ≤ q then ⌊q⌋ else ⌈q⌉

/-- What the Go source leaves to the platform and to the `math` library. -/
structure Platform where
  /-- The function `math.Sin` on finite arguments. -/
  sin : ℚ → ℚ
  /-- The value of `uint8(x)` when the truncation of `x` is not within `0..255`. -/
  byteOutOfRange : F64 → Fin 256
  /-- The value of `int(x)` when the truncation of `x` is not a 64-bit integer. -/
  intOutOfRange : F64 → ℤ

/-- The function `math.Sin`; `Sin(±Inf)` and `Sin(NaN)` are NaN. -/
def F64.sin (P : Platform) (x : F64) : F64 := x.map P.sin

/-- The conversion `uint8(x)` of a float. -/
def F64.toUInt8 (P : Platform) (x : F64) : Fin 256 :=
  match x with
  | some v =>
    if 0 ≤ truncQ v ∧ truncQ v < 256 then Fin.ofNat (truncQ v).toNat else P.byteOutOfRange x
  | none => P.byteOutOfRange x

/-- The conversion `int(x)` of a float. -/
def F64.toInt (P : Platform) (x : F64) : ℤ :=
  match x with
  | some v =>
    if -2 ^ 63 ≤ truncQ v ∧ truncQ v < 2 ^ 63 then truncQ v else P.intOutOfRange x
  | none => P.intOutOfRange x

/-- The conversion `uint8(n)` of an `int`: the low eight bits. -/
def intToUInt8 (n : ℤ) : Fin 256 := Fin.ofNat (n % 256).toNat

/-- The platform of the worked examples: the conversions of the 64-bit x86 target
(an out-of-range `int(x)` is `-2^63`, whose low byte is 0), and a constant function
in the place of `math.Sin`, of which the examples use only that its values lie in
`[-1, 1]`. -/
def examplePlatform : Platform :=
  { sin := fun _ => 0, byteOutOfRange := fun _ => 0, intOutOfRange := fun _ => -2 ^ 63 }

/-! ## Colours and images -/

/-- The type `color.RGBA`. -/
structure RGBA where
  R : Fin 256
  G : Fin 256
  B : Fin 256
  A : Fin 256
  deriving DecidableEq, Repr

/-- The zero colour `color.RGBA{}`. -/
def RGBA.zero : RGBA := ⟨0, 0, 0, 0⟩

/-- An image with bounds `(0,0)-(w,h)`: `w` is `Bounds().Dx()`, `h` is
`Bounds().Dy()` and `pix x y` is the colour at `(x, y)` in the RGBA colour model.
Only the values of `pix` within the bounds are part of the image. -/
structure Image where
  w : ℤ
  h : ℤ
  pix : ℤ → ℤ → RGBA

/-- The test `image.Point{x, y}.In(img.Rect)`. -/
def Image.inBounds (img : Image) (x y : ℤ) : Prop := 0 ≤ x ∧ x < img.w ∧ 0 ≤ y ∧ y < img.h

instance (img : Image) (x y : ℤ) : Decidable (img.inBounds x y) := by
  unfold Image.inBounds; infer_instance

/-- The call `image.NewRGBA(bounds)`: every pixel is the zero colour. -/
def Image.NewRGBA (w h : ℤ) : Image := { w := w, h := h, pix := fun _ _ => RGBA.zero }

/-- The method `(*image.RGBA).RGBAAt`: the zero colour outside the bounds. -/
def Image.RGBAAt (img : Image) (x y : ℤ) : RGBA :=
  if img.inBounds x y then img.pix x y else RGBA.zero

/-- The method `(*image.RGBA).SetRGBA`: nothing is written outside the bounds. -/
def Image.SetRGBA (img : Image) (x y : ℤ) (c : RGBA) : Image :=
  if img.inBounds x y then
    { img with pix := fun x1 y1 => if x1 = x ∧ y1 = y then c else img.pix x1 y1 }
  else img

/-- The call `draw.Draw(out, bounds, base, image.Point{}, draw.Src)` on a fresh
`out`: the pixels of `base` within the bounds are copied. -/
def Image.drawSrc (out base : Image) : Image :=
  { out with pix := fun x y => if out.inBounds x y then base.pix x y else out.pix x y }

/-- The type `shimmerDot`. -/
structure shimmerDot where
  X : ℤ
  Y : ℤ
  Phase : F64
  Gray : Fin 256

/-! ## ensureEvenSize -/

/-- The call `imaging.New(width, height, fill)`: the library returns the empty image
`&image.NRGBA{}` when `width <= 0 || height <= 0`. -/
def imagingNew (width height : ℤ) (fill : RGBA) : Image :=
  if width ≤ 0 ∨ height ≤ 0 then { w := 0, h := 0, pix := fun _ _ => RGBA.zero }
  else { w := width, h := height, pix := fun _ _ => fill }

/-- The call `imaging.PasteCenter(background, img)`: a copy of the background, with
`img` pasted at `(bgW/2 - imgW/2, bgH/2 - imgH/2)`, clipped to the background. -/
def imagingPasteCenter (background img : Image) : Image :=
  let x0 := background.w / 2 - img.w / 2
  let y0 := background.h / 2 - img.h / 2
  { w := background.w
    h := background.h
    pix := fun x y =>
      if background.inBounds x y ∧ img.inBounds (x - x0) (y - y0) then img.pix (x - x0) (y - y0)
      else background.pix x y }

/-- The function `ensureEvenSize`. -/
def ensureEvenSize (img : Image) : Image :=
  let w := img.w
  let h := img.h
  if w.tmod 2 = 0 ∧ h.tmod 2 = 0 then img
  else
    let nw := w + w.tmod 2
    let nh := h + h.tmod 2
    imagingPasteCenter (imagingNew nw nh ⟨0, 0, 0, 255⟩) img

/-! ## generateShimmerDots -/

/-- The random source of `math/rand`: the raw outcomes, consumed in order. -/
structure Rng where
  raw : ℕ → ℕ
  pos : ℕ

/-- The call `rand.Intn(n)`: a value in `[0, n)`; it panics (`none`) when `n <= 0`. -/
def Rng.Intn (r : Rng) (n : ℤ) : Option (ℤ × Rng) :=
  if n ≤ 0 then none else some ((r.raw r.pos : ℤ) % n, { r with pos := r.pos + 1 })

/-- The call `rand.Float64()`: `float64(r.Int63()) / (1 << 63)`, drawn again while the
quotient is 1.  The quotient is 1 exactly for the draws from `2^63 - 512` on, which
the conversion rounds to `2^63`, so an outcome of the source stands for the draw that
is kept, an integer below `2^63 - 512`; the division by `2^63` is exact. -/
def Rng.Float64 (r : Rng) : ℚ × Rng :=
  (round64 ((r.raw r.pos % (2 ^ 63 - 512) : ℕ) : ℚ) / 2 ^ 63, { r with pos := r.pos + 1 })

/-- One iteration of the loop of `generateShimmerDots`: the dot `dots[i]`. -/
def generateDot (img : Image) (grayMin grayMax : ℤ) (r : Rng) : Option (shimmerDot × Rng) :=
  match r.Intn (grayMax - grayMin + 1) with
  | none => none
  | some (g, r1) =>
    let gray := grayMin + g
    match r1.Intn img.w with
    | none => none
    | some (x, r2) =>
      match r2.Intn img.h with
      | none => none
      | some (y, r3) =>
        let f := r3.Float64
        some ({ X := x, Y := y,
                Phase := F64.mul (F64.mul (some f.1) (some 2)) (some pi64),
                Gray := intToUInt8 gray }, f.2)

/-- The loop `for i := range dots` of `generateShimmerDots`, over `n` dots. -/
def generateDotsLoop (img : Image) (grayMin grayMax : ℤ) : ℕ → Rng → Option (List shimmerDot × Rng)
  | 0, r => some ([], r)
  | n + 1, r =>
    match generateDot img grayMin grayMax r with
    | none => none
    | some (d, r1) =>
      match generateDotsLoop img grayMin grayMax n r1 with
      | none => none
      | some (ds, r2) => some (d :: ds, r2)

/-- The function `generateShimmerDots`; `none` is a panic (`make` with a negative
length, or `rand.Intn` with a non-positive argument). -/
def generateShimmerDots (img : Image) (count grayMin grayMax : ℤ) (r : Rng) :
    Option (List shimmerDot × Rng) :=
  if count < 0 then none else generateDotsLoop img grayMin grayMax count.toNat r

/-! ## alphaBlend and drawShimmerFrame -/

/-- One colour channel of `alphaBlend` before its conversion to `uint8`:
`float64(fg.c)*alpha + float64(bg.c)*invAlpha`. -/
def blendChannel (f b : Fin 256) (alpha invAlpha : F64) : F64 :=
  F64.add (F64.mul (F64.ofInt f) alpha) (F64.mul (F64.ofInt b) invAlpha)

/-- The value `alpha := float64(fg.A) / 255` of `alphaBlend`. -/
def blendAlpha (a : Fin 256) : F64 := F64.div (F64.ofInt a) (some 255)

/-- The value `invAlpha := 1 - alpha` of `alphaBlend`. -/
def blendInvAlpha (a : Fin 256) : F64 := F64.sub (some 1) (blendAlpha a)

/-- The function `alphaBlend`. -/
def alphaBlend (P : Platform) (fg bg : RGBA) : RGBA :=
  let alpha := blendAlpha fg.A
  let invAlpha := blendInvAlpha fg.A
  { R := F64.toUInt8 P (blendChannel fg.R bg.R alpha invAlpha)
    G := F64.toUInt8 P (blendChannel fg.G bg.G alpha invAlpha)
    B := F64.toUInt8 P (blendChannel fg.B bg.B alpha invAlpha)
    A := 255 }

/-- The colour `overlayColor` of `drawShimmerFrame`:
`color.RGBA{0, 0, 0, uint8(int(float64(255) * darkenPercent))}`. -/
def overlayColor (P : Platform) (darkenPercent : ℚ) : RGBA :=
  let darkenAmount := F64.toInt P (F64.mul (some 255) (some darkenPercent))
  ⟨0, 0, 0, intToUInt8 darkenAmount⟩

/-- The darkening loops of `drawShimmerFrame`: `y` over the rows, `x` over the
columns, each pixel blended with the overlay colour. -/
def darkenLoop (P : Platform) (w h : ℤ) (overlay : RGBA) (out : Image) : Image :=
  (List.range h.toNat).foldl (fun o (y : ℕ) =>
    (List.range w.toNat).foldl (fun o1 (x : ℕ) =>
      o1.SetRGBA x y (alphaBlend P overlay (o1.RGBAAt x y))) o) out

/-- The value `centerFrame` of `drawShimmerFrame`:
`shimmerSpeed * 2 * math.Pi * (float64(frame) / float64(totalFrames))`. -/
def centerFrame (frame totalFrames : ℤ) (shimmerSpeed : ℚ) : F64 :=
  F64.mul (F64.mul (F64.mul (some shimmerSpeed) (some 2)) (some pi64))
    (F64.div (F64.ofInt frame) (F64.ofInt totalFrames))

/-- The argument `centerFrame + dot.Phase` of `math.Sin` in `drawShimmerFrame`. -/
def shimmerArg (frame totalFrames : ℤ) (shimmerSpeed : ℚ) (phase : F64) : F64 :=
  F64.add (centerFrame frame totalFrames shimmerSpeed) phase

/-- The brightness `alpha := 0.5 + 0.5*math.Sin(centerFrame+dot.Phase)` of a dot. -/
def shimmerBrightness (P : Platform) (frame totalFrames : ℤ) (shimmerSpeed : ℚ)
    (phase : F64) : F64 :=
  F64.add (some (1 / 2))
    (F64.mul (some (1 / 2)) (F64.sin P (shimmerArg frame totalFrames shimmerSpeed phase)))

/-- The quantised brightness `alpha * 255` of a dot, before its conversion. -/
def shimmerQuantised (P : Platform) (frame totalFrames : ℤ) (shimmerSpeed : ℚ)
    (phase : F64) : F64 :=
  F64.mul (shimmerBrightness P frame totalFrames shimmerSpeed phase) (some 255)

/-- The colour `dotColor` of a dot: `color.RGBA{dot.Gray, dot.Gray, dot.Gray, a}`
with `a := uint8(alpha * 255)`. -/
def dotColor (P : Platform) (frame totalFrames : ℤ) (shimmerSpeed : ℚ) (dot : shimmerDot) :
    RGBA :=
  let a := F64.toUInt8 P (shimmerQuantised P frame totalFrames shimmerSpeed dot.Phase)
  ⟨dot.Gray, dot.Gray, dot.Gray, a⟩

/-- The loops over `dx` and `dy` of `drawShimmerFrame` for one dot. -/
def drawDot (P : Platform) (w h : ℤ) (dotSize : ℤ) (color : RGBA) (dot : shimmerDot)
    (out : Image) : Image :=
  (List.range dotSize.toNat).foldl (fun o (dx : ℕ) =>
    (List.range dotSize.toNat).foldl (fun o1 (dy : ℕ) =>
      let x := dot.X + dx
      let y := dot.Y + dy
      if x < w ∧ y < h then o1.SetRGBA x y (alphaBlend P color (o1.RGBAAt x y)) else o1) o) out

/-- The function `drawShimmerFrame`. -/
def drawShimmerFrame (P : Platform) (base : Image) (dots : List shimmerDot)
    (frame totalFrames dotSize : ℤ) (shimmerSpeed darkenPercent : ℚ) : Image :=
  let out := (Image.NewRGBA base.w base.h).drawSrc base
  let out := darkenLoop P base.w base.h (overlayColor P darkenPercent) out
  dots.foldl (fun o dot =>
    drawDot P base.w base.h dotSize (dotColor P frame totalFrames shimmerSpeed dot) dot o) out

/-! ## GenerateSpoilerFrames -/

/-- The outcomes of the input and output operations of one run. -/
structure Env where
  /-- The result of `imaging.Open(imagePath)`; `none` is an error. -/
  openImage : Option Image
  /-- The pixels computed by `imaging.Blur`. -/
  blurPix : Image → ℚ → ℤ → ℤ → RGBA
  /-- Whether `os.MkdirAll(outputDir, os.ModePerm)` succeeds. -/
  mkdirOk : Bool
  /-- Whether `os.Create` succeeds for frame `i`. -/
  createOk : ℕ → Bool
  /-- Whether `png.Encode` succeeds for frame `i`. -/
  encodeOk : ℕ → Bool
  /-- The random source after `rand.Seed(time.Now().UnixNano())`. -/
  rng : Rng

/-- The call `imaging.Blur(img, sigma)`: an image of the same size. -/
def imagingBlur (E : Env) (img : Image) (sigma : ℚ) : Image :=
  { w := img.w, h := img.h, pix := E.blurPix img sigma }

/-- How a run of `GenerateSpoilerFrames` ends: `nil`, an error (its message, without
the wrapped cause), or a panic. -/
inductive Outcome where
  | success
  | failure (msg : String)
  | panicked
  deriving DecidableEq, Repr

/-- What a run does to the frames, in order. -/
inductive Event where
  /-- The call `drawShimmerFrame(blurred, dots, i, ...)`. -/
  | draw (i : ℕ)
  /-- The call `os.Create` succeeded for the file `name` of the output directory. -/
  | create (name : String)
  /-- The call `png.Encode` wrote `frame` to the file `name`. -/
  | encode (name : String) (frame : Image)

/-- The decimal digits of `i`, most significant first, zero-padded to four digits:
the verb `%04d` for `i ≥ 0`. -/
def pad4 (i : ℕ) : List ℕ :=
  List.replicate (4 - (Nat.digits 10 i).length) 0 ++ (Nat.digits 10 i).reverse

/-- The file name `fmt.Sprintf("frame_%04d.png", i)`. -/
def frameName (i : ℕ) : String :=
  "frame_" ++ String.mk ((pad4 i).map Nat.digitChar) ++ ".png"

/-- The value `dotCount` of `GenerateSpoilerFrames`:
`int(float64(blurred.Bounds().Dx()*blurred.Bounds().Dy()) * dotDensity)`. -/
def dotCount (P : Platform) (blurred : Image) (dotDensity : ℚ) : ℤ :=
  F64.toInt P (F64.mul (F64.ofInt (blurred.w * blurred.h)) (some dotDensity))

/-- The loop `for i := range totalFrames` of `GenerateSpoilerFrames`, from frame
`i` on, with `n` frames left. -/
def frameLoop (P : Platform) (E : Env) (blurred : Image) (dots : List shimmerDot)
    (totalFrames dotSize : ℤ) (shimmerSpeed darkenPercent : ℚ) :
    ℕ → ℕ → Outcome × List Event
  | 0, _ => (Outcome.success, [])
  | n + 1, i =>
    let frame := drawShimmerFrame P blurred dots i totalFrames dotSize shimmerSpeed darkenPercent
    let name := frameName i
    if E.createOk i then
      if E.encodeOk i then
        let rest := frameLoop P E blurred dots totalFrames dotSize shimmerSpeed darkenPercent
          n (i + 1)
        (rest.1, Event.draw i :: Event.create name :: Event.encode name frame :: rest.2)
      else (Outcome.failure "failed to encode frame", [Event.draw i, Event.create name])
    else (Outcome.failure "failed to create frame", [Event.draw i])

/-- The function `GenerateSpoilerFrames`: how the run ends and what it did. -/
def GenerateSpoilerFrames (P : Platform) (E : Env) (totalFrames : ℤ)
    (blurSigma dotDensity : ℚ) (dotSize : ℤ) (shimmerSpeed darkenPercent : ℚ) :
    Outcome × List Event :=
  match E.openImage with
  | none => (Outcome.failure "failed to open image", [])
  | some srcImg =>
    let srcImg := ensureEvenSize srcImg
    let blurred := imagingBlur E srcImg blurSigma
    if E.mkdirOk then
      let dotCount := dotCount P blurred dotDensity
      if dotCount < 1 then (Outcome.failure "dot count must be at least 1", [])
      else
        match generateShimmerDots blurred dotCount 220 250 E.rng with
        | none => (Outcome.panicked, [])
        | some (dots, _) =>
          frameLoop P E blurred dots totalFrames dotSize shimmerSpeed darkenPercent
            totalFrames.toNat 0
    else (Outcome.failure "failed to create output directory", [])

/-- The constant `dotDensity = 0.004` of `main.go` as a `float64`:
`0x1.0624dd2f1a9fcp-8`. -/
def density004 : ℚ := 1152921504606847 / 2 ^ 58

/-- The constant `darkenPercent = 0.3` of `main.go` as a `float64`:
`0x1.3333333333333p-2`. -/
def darken03 : ℚ := 5404319552844595 / 2 ^ 54

/-- The end-to-end scenario of the specification: a 101×100 source image, and every
input and output operation succeeds. -/
def exampleEnv : Env :=
  { openImage := some ⟨101, 100, fun _ _ => RGBA.zero⟩
    blurPix := fun img _ => img.pix
    mkdirOk := true
    createOk := fun _ => true
    encodeOk := fun _ => true
    rng := ⟨fun n => 7 * n + 3, 0⟩ }

/-- The scenario with a 2×2 source image in the place of the 101×100 one. -/
def smallEnv : Env :=
  { exampleEnv with openImage := some ⟨2, 2, fun _ _ => RGBA.zero⟩ }

/-- The `float64` nearest to `1/12`: `0x1.5555555555555p-4`. -/
def density12 : ℚ := 6004799503160661 / 2 ^ 56

/-- The `float64` nearest to `1.3`: `0x1.4cccccccccccdp+0`. -/
def darken13 : ℚ := 5854679515581645 / 2 ^ 52

/-- The `float64` nearest to `1/3`: `0x1.5555555555555p-2`. -/
def darkenThird : ℚ := 6004799503160661 / 2 ^ 54

/-- The frame files a run has written: name and content, in order. -/
def writtenFiles : List Event → List (String × Image)
  | [] => []
  | Event.encode name frame :: es => (name, frame) :: writtenFiles es
  | _ :: es => writtenFiles es

/-! ## Reference descriptions of the specification -/

/-- What holds of an output channel `c` of `alphaBlend` for the channels `f` and `b`
of the foreground and the background and the alpha `a` of the foreground: the float
value `float64(f)*alpha + float64(b)*invAlpha` is finite and within `[0, 256)`, `c` is
its integer part, and `c` lies between `min f b - 1` and `max f b`. -/
def ChannelSpec (f b a c : Fin 256) : Prop :=
  ∃ v : ℚ, blendChannel f b (blendAlpha a) (blendInvAlpha a) = some v ∧ 0 ≤ v ∧ v < 256 ∧
    ((c : ℕ) : ℤ) = truncQ v ∧
    min ((f : ℕ) : ℤ) ((b : ℕ) : ℤ) - 1 ≤ ((c : ℕ) : ℤ) ∧
    ((c : ℕ) : ℤ) ≤ max ((f : ℕ) : ℤ) ((b : ℕ) : ℤ)

/-- The dot `d` covers `(x, y)`: the point lies in the square
`[X, X+dotSize) × [Y, Y+dotSize)`. -/
def covers (dotSize : ℤ) (d : shimmerDot) (x y : ℤ) : Prop :=
  d.X ≤ x ∧ x < d.X + dotSize ∧ d.Y ≤ y ∧ y < d.Y + dotSize

instance (dotSize : ℤ) (d : shimmerDot) (x y : ℤ) : Decidable (covers dotSize d x y) := by
  unfold covers; infer_instance

/-- The step `f` on images keeps the size and changes exactly the pixels of the region
`R` that lie within the bounds, each from its colour `c` to `g c`. -/
def RegionUpdate (g : RGBA → RGBA) (R : ℤ → ℤ → Prop) (f : Image → Image) : Prop :=
  ∀ o : Image, (f o).w = o.w ∧ (f o).h = o.h ∧
    ∀ x y, (R x y ∧ o.inBounds x y → (f o).pix x y = g (o.pix x y)) ∧
      (¬ (R x y ∧ o.inBounds x y) → (f o).pix x y = o.pix x y)

/-- The pixel of a frame as the specification describes it: the base pixel blended
with the black overlay `(0, 0, 0, overlayAlpha)`, then with the colour
`(Gray, Gray, Gray, a)` of every covering dot, in the order of the dot list, where
`a` is the 8-bit conversion of the brightness of the dot times 255. -/
def framePixelSpec (P : Platform) (base : Image) (dots : List shimmerDot)
    (frame totalFrames dotSize : ℤ) (shimmerSpeed : ℚ) (overlayAlpha : Fin 256)
    (x y : ℤ) : RGBA :=
  (dots.filter (fun d => decide (covers dotSize d x y))).foldl
    (fun acc d => alphaBlend P
      ⟨d.Gray, d.Gray, d.Gray,
        F64.toUInt8 P
          (F64.mul (shimmerBrightness P frame totalFrames shimmerSpeed d.Phase) (some 255))⟩
      acc)
    (alphaBlend P ⟨0, 0, 0, overlayAlpha⟩ (base.pix x y))

/-! ## float64: rounding -/

theorem roundHalfEven_intCast (n : ℤ) : roundHalfEven (n : ℚ) = n := by
  simp [roundHalfEven]

theorem roundHalfEven_sub_le (q : ℚ) : |(roundHalfEven q : ℚ) - q| ≤ 1 / 2 := by
  have h1 := Int.floor_le q
  have h2 := Int.lt_floor_add_one q
  unfold roundHalfEven
  split_ifs with ha hb hc
  · rw [abs_le]; constructor <;> linarith
  · rw [abs_le]; push_cast; constructor <;> linarith
  · rw [abs_le]; constructor <;> linarith
  · rw [abs_le]; push_cast; constructor <;> linarith

theorem roundHalfEven_le_of_le (q : ℚ) (n : ℤ) (h : q ≤ n) : roundHalfEven q ≤ n := by
  have h1 : ⌊q⌋ ≤ n := by
    have h0 : ⌊q⌋ ≤ ⌊(n : ℚ)⌋ := Int.floor_mono h
    simpa using h0
  rcases eq_or_lt_of_le h1 with h2 | h2
  · -- floor q = n, so q = n
    have hq : q = n := le_antisymm h (by rw [← h2]; exact Int.floor_le q)
    rw [hq, roundHalfEven_intCast]
  · have h3 : ⌊q⌋ + 1 ≤ n := h2
    unfold roundHalfEven
    split_ifs <;> omega

theorem le_roundHalfEven_of_le (q : ℚ) (n : ℤ) (h : (n : ℚ) ≤ q) : n ≤ roundHalfEven q := by
  have h1 : n ≤ ⌊q⌋ := Int.le_floor.mpr h
  unfold roundHalfEven
  split_ifs <;> omega

theorem two_zpow_pos (t : ℤ) : (0 : ℚ) < 2 ^ t := zpow_pos (by norm_num) t

theorem log_spec {x : ℚ} (hx : 0 < x) :
    (2 : ℚ) ^ Int.log 2 x ≤ x ∧ x < (2 : ℚ) ^ (Int.log 2 x + 1) := by
  have h1 := Int.zpow_log_le_self (b := 2) (by norm_num) hx
  have h2 := Int.lt_zpow_succ_log_self (b := 2) (by norm_num) x
  exact ⟨by simpa using h1, by simpa using h2⟩

theorem log_le_of_le_zpow {x : ℚ} (hx : 0 < x) {k : ℤ} (h : x ≤ 2 ^ k) : Int.log 2 x ≤ k := by
  have h1 := Int.log_mono_right (b := 2) hx h
  have h2 := Int.log_zpow (R := ℚ) (b := 2) (by norm_num) k
  have h3 : ((2 : ℕ) : ℚ) = 2 := by norm_num
  rw [h3] at h2
  rw [h2] at h1
  exact h1

theorem roundMag_zero : roundMag 0 = 0 := by
  simp [roundMag, roundHalfEven]

theorem roundMag_nonneg {x : ℚ} (hx : 0 ≤ x) : 0 ≤ roundMag x := by
  unfold roundMag
  have h1 : (0 : ℚ) ≤ x / 2 ^ ulpExp x := div_nonneg hx (two_zpow_pos _).le
  have h2 : (0 : ℤ) ≤ roundHalfEven (x / 2 ^ ulpExp x) :=
    le_roundHalfEven_of_le _ 0 (by simpa using h1)
  exact mul_nonneg (by exact_mod_cast h2) (two_zpow_pos _).le

theorem roundMag_sub_le {x : ℚ} (hx : 0 ≤ x) :
    |roundMag x - x| ≤ 2 ^ (-53 : ℤ) * x + 2 ^ (-1075 : ℤ) := by
  rcases eq_or_lt_of_le hx with h0 | hpos
  · rw [← h0, roundMag_zero]; simp
    positivity
  have hT := two_zpow_pos (ulpExp x)
  have h1 : roundMag x - x = ((roundHalfEven (x / 2 ^ ulpExp x) : ℚ) - x / 2 ^ ulpExp x)
      * 2 ^ ulpExp x := by
    unfold roundMag; field_simp
  have h2 := roundHalfEven_sub_le (x / 2 ^ ulpExp x)
  have h3 : |roundMag x - x| ≤ 1 / 2 * 2 ^ ulpExp x := by
    rw [h1, abs_mul, abs_of_pos hT]
    exact mul_le_mul_of_nonneg_right h2 hT.le
  have h4 : (1 / 2 : ℚ) * 2 ^ ulpExp x = 2 ^ (ulpExp x - 1) := by
    rw [zpow_sub₀ (by norm_num : (2 : ℚ) ≠ 0)]; simp; ring
  rw [h4] at h3
  obtain ⟨hlo, -⟩ := log_spec hpos
  by_cases he : -1022 ≤ Int.log 2 x
  · have hu : ulpExp x - 1 = Int.log 2 x + (-53) := by unfold ulpExp; rw [max_eq_left he]; ring
    rw [hu, zpow_add₀ (by norm_num : (2 : ℚ) ≠ 0)] at h3
    have h5 : (2 : ℚ) ^ Int.log 2 x * 2 ^ (-53 : ℤ) ≤ x * 2 ^ (-53 : ℤ) :=
      mul_le_mul_of_nonneg_right hlo (two_zpow_pos _).le
    have h6 := two_zpow_pos (-1075)
    linarith
  · have hu : ulpExp x - 1 = -1075 := by
      unfold ulpExp; rw [max_eq_right (by omega)]; ring
    rw [hu] at h3
    have h6 : 0 ≤ (2 : ℚ) ^ (-53 : ℤ) * x := mul_nonneg (two_zpow_pos _).le hx
    linarith

theorem roundMag_le_two_zpow {x : ℚ} (hx : 0 ≤ x) {k : ℤ} (hk : -1022 ≤ k) (h : x ≤ 2 ^ k) :
    roundMag x ≤ 2 ^ k := by
  rcases eq_or_lt_of_le hx with h0 | hpos
  · rw [← h0, roundMag_zero]; exact (two_zpow_pos k).le
  have he := log_le_of_le_zpow hpos h
  have hT : ulpExp x ≤ k := by unfold ulpExp; have := max_le he hk; omega
  have hTp := two_zpow_pos (ulpExp x)
  have hcast : (((2 : ℤ) ^ (k - ulpExp x).toNat : ℤ) : ℚ) = 2 ^ (k - ulpExp x) := by
    push_cast
    rw [← zpow_natCast, Int.toNat_of_nonneg (by omega)]
  have h1 : x / 2 ^ ulpExp x ≤ (((2 : ℤ) ^ (k - ulpExp x).toNat : ℤ) : ℚ) := by
    rw [hcast, zpow_sub₀ (by norm_num : (2 : ℚ) ≠ 0)]
    exact div_le_div_of_nonneg_right h hTp.le
  have h2 := roundHalfEven_le_of_le _ _ h1
  have h3 : (roundHalfEven (x / 2 ^ ulpExp x) : ℚ) ≤ 2 ^ (k - ulpExp x) := by
    rw [← hcast]; exact_mod_cast h2
  unfold roundMag
  calc (roundHalfEven (x / 2 ^ ulpExp x) : ℚ) * 2 ^ ulpExp x
      ≤ 2 ^ (k - ulpExp x) * 2 ^ ulpExp x := mul_le_mul_of_nonneg_right h3 hTp.le
    _ = 2 ^ k := by rw [← zpow_add₀ (by norm_num : (2 : ℚ) ≠ 0)]; congr 1; ring

theorem roundMag_natCast (n : ℕ) (hn : n < 2 ^ 53) : roundMag (n : ℚ) = n := by
  rcases Nat.eq_zero_or_pos n with h0 | hpos
  · subst h0; simpa using roundMag_zero
  have hlog : Int.log 2 (n : ℚ) = (Nat.log 2 n : ℤ) := Int.log_natCast 2 n
  have hlt : Nat.log 2 n < 53 := Nat.log_lt_of_lt_pow (by omega) hn
  have hu : ulpExp (n : ℚ) = -((52 - Nat.log 2 n : ℕ) : ℤ) := by
    unfold ulpExp; rw [hlog, max_eq_left (by omega)]; omega
  have hx : (n : ℚ) / 2 ^ ulpExp (n : ℚ) = ((n * 2 ^ (52 - Nat.log 2 n) : ℕ) : ℤ) := by
    rw [hu, zpow_neg, zpow_natCast]; push_cast; field_simp
  unfold roundMag
  rw [hx, roundHalfEven_intCast, hu, zpow_neg, zpow_natCast]
  push_cast
  field_simp

/-! ## float64: exact cases -/

theorem round64_natCast (n : ℕ) (hn : n < 2 ^ 53) : round64 (n : ℚ) = n := by
  unfold round64
  rw [if_neg (by simp), roundMag_natCast n hn]

theorem ofRat_natCast (n : ℕ) (hn : n < 2 ^ 53) : F64.ofRat (n : ℚ) = some (n : ℚ) := by
  unfold F64.ofRat
  rw [round64_natCast n hn, if_pos]
  rw [abs_of_nonneg (by positivity)]
  calc (n : ℚ) < ((2 ^ 53 : ℕ) : ℚ) := by exact_mod_cast hn
    _ ≤ 2 ^ 1024 := by norm_num

theorem ofRat_zero : F64.ofRat 0 = some 0 := by
  simpa using ofRat_natCast 0 (by norm_num)

theorem ofRat_one : F64.ofRat 1 = some 1 := by
  simpa using ofRat_natCast 1 (by norm_num)

theorem ofInt_fin (f : Fin 256) : F64.ofInt ((f : ℕ) : ℤ) = some ((f : ℕ) : ℚ) := by
  unfold F64.ofInt
  have h := ofRat_natCast f (lt_trans f.isLt (by norm_num))
  simpa using h

theorem truncQ_natCast (n : ℕ) : truncQ (n : ℚ) = n := by
  unfold truncQ
  rw [if_pos (by positivity)]
  exact Int.floor_natCast n

theorem toUInt8_fin (P : Platform) (f : Fin 256) : F64.toUInt8 P (some ((f : ℕ) : ℚ)) = f := by
  unfold F64.toUInt8
  simp only [truncQ_natCast]
  rw [if_pos ⟨by positivity, by exact_mod_cast f.isLt⟩]
  apply Fin.ext
  simp [Fin.ofNat, Nat.mod_eq_of_lt f.isLt]

theorem blendAlpha_zero : blendAlpha 0 = some 0 := by
  unfold blendAlpha
  rw [ofInt_fin]
  simp [F64.div, ofRat_zero]

theorem blendInvAlpha_zero : blendInvAlpha 0 = some 1 := by
  simp [blendInvAlpha, blendAlpha_zero, F64.sub, ofRat_one]

theorem blendAlpha_full : blendAlpha 255 = some 1 := by
  unfold blendAlpha
  rw [ofInt_fin]
  have h255 : (((255 : Fin 256) : ℕ) : ℚ) = 255 := by
    have h0 : ((255 : Fin 256) : ℕ) = 255 := rfl
    rw [h0]; norm_num
  rw [h255]
  simp [F64.div, ofRat_one]

theorem blendInvAlpha_full : blendInvAlpha 255 = some 0 := by
  simp [blendInvAlpha, blendAlpha_full, F64.sub, ofRat_zero]

theorem blendChannel_transparent (f b : Fin 256) :
    blendChannel f b (some 0) (some 1) = some ((b : ℕ) : ℚ) := by
  unfold blendChannel
  rw [ofInt_fin, ofInt_fin]
  simp only [F64.mul, mul_zero, mul_one, ofRat_zero]
  rw [ofRat_natCast b (lt_trans b.isLt (by norm_num))]
  simp only [F64.add, zero_add]
  exact ofRat_natCast b (lt_trans b.isLt (by norm_num))

theorem blendChannel_opaque (f b : Fin 256) :
    blendChannel f b (some 1) (some 0) = some ((f : ℕ) : ℚ) := by
  unfold blendChannel
  rw [ofInt_fin, ofInt_fin]
  simp only [F64.mul, mul_zero, mul_one, ofRat_zero]
  rw [ofRat_natCast f (lt_trans f.isLt (by norm_num))]
  simp only [F64.add, add_zero]
  exact ofRat_natCast f (lt_trans f.isLt (by norm_num))

/-! ## alphaBlend at the two extreme alphas -/

theorem alphaBlend_of_alpha_zero (P : Platform) (fg bg : RGBA) (h : fg.A = 0) :
    alphaBlend P fg bg = ⟨bg.R, bg.G, bg.B, 255⟩ := by
  unfold alphaBlend
  simp only [h, blendAlpha_zero, blendInvAlpha_zero, blendChannel_transparent, toUInt8_fin]

/-- C4 (as stated, refuted): the fully transparent foreground `(9, 8, 7, 0)` over the
background `(1, 2, 3, 4)`, which is not opaque, gives `(1, 2, 3, 255)` and not the
background: the alpha of the result is 255. -/
theorem alphaBlend_transparent_ne_bg :
    (⟨9, 8, 7, 0⟩ : RGBA).A = 0 ∧
      alphaBlend examplePlatform ⟨9, 8, 7, 0⟩ ⟨1, 2, 3, 4⟩ = ⟨1, 2, 3, 255⟩ ∧
      alphaBlend examplePlatform ⟨9, 8, 7, 0⟩ ⟨1, 2, 3, 4⟩ ≠ ⟨1, 2, 3, 4⟩ := by
  have h := alphaBlend_of_alpha_zero examplePlatform ⟨9, 8, 7, 0⟩ ⟨1, 2, 3, 4⟩ rfl
  refine ⟨rfl, h, ?_⟩
  rw [h]
  decide

/-- C4 (amended): when the alpha of the foreground is 0, `alphaBlend fg bg` has the
red, green and blue of the background and alpha 255; it is the background itself
when the background is opaque. -/
theorem alphaBlend_transparent (P : Platform) (fg bg : RGBA) (h : fg.A = 0) :
    alphaBlend P fg bg = ⟨bg.R, bg.G, bg.B, 255⟩ ∧ (bg.A = 255 → alphaBlend P fg bg = bg) := by
  have key := alphaBlend_of_alpha_zero P fg bg h
  refine ⟨key, fun hA => ?_⟩
  rw [key, ← hA]

theorem alphaBlend_transparent_witness :
    (⟨9, 8, 7, 0⟩ : RGBA).A = 0 ∧
      alphaBlend examplePlatform ⟨9, 8, 7, 0⟩ ⟨1, 2, 3, 255⟩ = ⟨1, 2, 3, 255⟩ :=
  ⟨rfl, (alphaBlend_transparent examplePlatform ⟨9, 8, 7, 0⟩ ⟨1, 2, 3, 255⟩ rfl).1⟩

/-- C5: when the alpha of the foreground is 255, `alphaBlend fg bg` has the red,
green and blue of the foreground and alpha 255, whatever the background. -/
theorem alphaBlend_opaque (P : Platform) (fg bg : RGBA) (h : fg.A = 255) :
    alphaBlend P fg bg = ⟨fg.R, fg.G, fg.B, 255⟩ := by
  unfold alphaBlend
  simp only [h, blendAlpha_full, blendInvAlpha_full, blendChannel_opaque, toUInt8_fin]

theorem alphaBlend_opaque_witness :
    (⟨9, 8, 7, 255⟩ : RGBA).A = 255 ∧
      alphaBlend examplePlatform ⟨9, 8, 7, 255⟩ ⟨1, 2, 3, 4⟩
        = ⟨9, 8, 7, 255⟩ :=
  ⟨rfl, alphaBlend_opaque examplePlatform ⟨9, 8, 7, 255⟩ ⟨1, 2, 3, 4⟩ rfl⟩

/-! ## float64: evaluation at a given value -/

theorem roundHalfEven_eq_of_abs_lt (q : ℚ) (m : ℤ) (h : |q - m| < 1 / 2) :
    roundHalfEven q = m := by
  rw [abs_lt] at h
  obtain ⟨h1, h2⟩ := h
  rcases le_or_lt (m : ℚ) q with hq | hq
  · have hf : ⌊q⌋ = m := Int.floor_eq_iff.mpr ⟨hq, by linarith⟩
    unfold roundHalfEven
    rw [hf, if_pos (by linarith)]
  · have hf : ⌊q⌋ = m - 1 := Int.floor_eq_iff.mpr ⟨by push_cast; linarith, by push_cast; linarith⟩
    unfold roundHalfEven
    rw [hf, if_neg (by push_cast; linarith), if_pos (by push_cast; linarith)]
    ring

theorem log_eq_of_bounds {x : ℚ} {e : ℤ} (hlo : 2 ^ e ≤ x) (hhi : x < 2 ^ (e + 1)) :
    Int.log 2 x = e := by
  have hx : 0 < x := lt_of_lt_of_le (two_zpow_pos e) hlo
  have h1 : e ≤ Int.log 2 x :=
    (Int.zpow_le_iff_le_log (b := 2) (by norm_num) hx).mp (by simpa using hlo)
  have h2 : Int.log 2 x < e + 1 :=
    (Int.lt_zpow_iff_log_lt (b := 2) (by norm_num) hx).mp (by simpa using hhi)
  omega

theorem roundHalfEven_eq_of_tie (q : ℚ) (m : ℤ) (h : q = m + 1 / 2) (hm : m % 2 = 0) :
    roundHalfEven q = m := by
  have hf : ⌊q⌋ = m := Int.floor_eq_iff.mpr ⟨by linarith, by linarith⟩
  unfold roundHalfEven
  rw [hf, if_neg (by linarith), if_neg (by linarith), if_pos hm]

theorem round64_eq_of_round (x : ℚ) (e m : ℤ) (he : -1022 ≤ e) (hlo : 2 ^ e ≤ x)
    (hhi : x < 2 ^ (e + 1)) (hm : roundHalfEven (x / 2 ^ (e - 52)) = m) :
    round64 x = (m : ℚ) * 2 ^ (e - 52) := by
  have hx : 0 < x := lt_of_lt_of_le (two_zpow_pos e) hlo
  have hu : ulpExp x = e - 52 := by
    unfold ulpExp; rw [log_eq_of_bounds hlo hhi, max_eq_left he]
  unfold round64
  rw [if_neg (not_lt.mpr hx.le)]
  unfold roundMag
  rw [hu, hm]

/-- The float nearest to a positive `x` of the binade `[2^e, 2^(e+1))` is `m * 2^(e-52)`
when `x / 2^(e-52)` rounds to the integer `m`. -/
theorem ofRat_eq_of_round (x : ℚ) (e m : ℤ) (he : -1022 ≤ e) (hlo : 2 ^ e ≤ x)
    (hhi : x < 2 ^ (e + 1)) (hm : roundHalfEven (x / 2 ^ (e - 52)) = m)
    (hfin : |(m : ℚ) * 2 ^ (e - 52)| < 2 ^ 1024) :
    F64.ofRat x = some ((m : ℚ) * 2 ^ (e - 52)) := by
  unfold F64.ofRat
  rw [round64_eq_of_round x e m he hlo hhi hm, if_pos hfin]

/-- The float nearest to a positive `x` of the binade `[2^e, 2^(e+1))` is `m * 2^(e-52)`
when `m` is the integer nearest to `x / 2^(e-52)`. -/
theorem ofRat_eq_of (x : ℚ) (e m : ℤ) (he : -1022 ≤ e) (hlo : 2 ^ e ≤ x)
    (hhi : x < 2 ^ (e + 1)) (hm : |x / 2 ^ (e - 52) - m| < 1 / 2)
    (hfin : |(m : ℚ) * 2 ^ (e - 52)| < 2 ^ 1024) :
    F64.ofRat x = some ((m : ℚ) * 2 ^ (e - 52)) :=
  ofRat_eq_of_round x e m he hlo hhi (roundHalfEven_eq_of_abs_lt _ m hm) hfin

/-! ## alphaBlend: unfolding and a worked blend -/

theorem blendAlpha_eq (a : Fin 256) : blendAlpha a = F64.ofRat (((a : ℕ) : ℚ) / 255) := by
  unfold blendAlpha
  rw [ofInt_fin]
  simp [F64.div]

theorem blendInvAlpha_eq (a : Fin 256) (α : ℚ) (h : blendAlpha a = some α) :
    blendInvAlpha a = F64.ofRat (1 - α) := by
  unfold blendInvAlpha
  rw [h]
  rfl

theorem blendChannel_eq (f b : Fin 256) (α β p q : ℚ)
    (hp : F64.ofRat (((f : ℕ) : ℚ) * α) = some p) (hq : F64.ofRat (((b : ℕ) : ℚ) * β) = some q) :
    blendChannel f b (some α) (some β) = F64.ofRat (p + q) := by
  unfold blendChannel
  rw [ofInt_fin, ofInt_fin]
  simp only [F64.mul, hp, hq, F64.add]

theorem blend_example_alpha : blendAlpha 12 = some (6781891203569688 * 2 ^ (-57 : ℤ)) := by
  rw [blendAlpha_eq]
  have h0 : (((12 : Fin 256) : ℕ) : ℚ) = 12 := by
    have h1 : ((12 : Fin 256) : ℕ) = 12 := rfl
    rw [h1]; norm_num
  rw [h0]
  have h := ofRat_eq_of ((12 : ℚ) / 255) (-5) 6781891203569688 (by norm_num) (by norm_num)
    (by norm_num) (by norm_num [abs_lt]) (by norm_num [abs_lt])
  rw [h]; norm_num

theorem blend_example_invAlpha :
    blendInvAlpha 12 = some (8583331054517886 * 2 ^ (-53 : ℤ)) := by
  rw [blendInvAlpha_eq 12 _ blend_example_alpha]
  have h := ofRat_eq_of_round (1 - 6781891203569688 * 2 ^ (-57 : ℤ)) (-1) 8583331054517886
    (by norm_num) (by norm_num) (by norm_num)
    (roundHalfEven_eq_of_tie _ _ (by norm_num) (by norm_num)) (by norm_num [abs_lt])
  rw [h]; norm_num

theorem blend_example_channel :
    blendChannel 125 125 (some (6781891203569688 * 2 ^ (-57 : ℤ)))
      (some (8583331054517886 * 2 ^ (-53 : ℤ))) = some (8796093022207999 / 2 ^ 46) := by
  have h0 : (((125 : Fin 256) : ℕ) : ℚ) = 125 := by
    have h1 : ((125 : Fin 256) : ℕ) = 125 := rfl
    rw [h1]; norm_num
  have hp : F64.ofRat ((((125 : Fin 256) : ℕ) : ℚ) * (6781891203569688 * 2 ^ (-57 : ℤ)))
      = some (6622940628486023 * 2 ^ (-50 : ℤ)) := by
    rw [h0]
    have h := ofRat_eq_of (125 * (6781891203569688 * 2 ^ (-57 : ℤ))) 2 6622940628486023
      (by norm_num) (by norm_num) (by norm_num) (by norm_num [abs_lt]) (by norm_num [abs_lt])
    rw [h]; norm_num
  have hq : F64.ofRat ((((125 : Fin 256) : ℕ) : ℚ) * (8583331054517886 * 2 ^ (-53 : ℤ)))
      = some (8382159232927623 * 2 ^ (-46 : ℤ)) := by
    rw [h0]
    have h := ofRat_eq_of (125 * (8583331054517886 * 2 ^ (-53 : ℤ))) 6 8382159232927623
      (by norm_num) (by norm_num) (by norm_num) (by norm_num [abs_lt]) (by norm_num [abs_lt])
    rw [h]; norm_num
  rw [blendChannel_eq 125 125 _ _ _ _ hp hq]
  have h := ofRat_eq_of (6622940628486023 * 2 ^ (-50 : ℤ) + 8382159232927623 * 2 ^ (-46 : ℤ)) 6
    8796093022207999 (by norm_num) (by norm_num) (by norm_num) (by norm_num [abs_lt])
    (by norm_num [abs_lt])
  rw [h]; norm_num

theorem toUInt8_example (P : Platform) :
    F64.toUInt8 P (some (8796093022207999 / 2 ^ 46)) = 124 := by
  have ht : truncQ (8796093022207999 / 2 ^ 46) = 124 := by
    unfold truncQ
    rw [if_pos (by norm_num)]
    exact Int.floor_eq_iff.mpr ⟨by norm_num, by norm_num⟩
  unfold F64.toUInt8
  simp only [ht]
  rfl

/-! ## float64: bounds and rounding error on small non-negative values -/

theorem round64_of_nonneg {q : ℚ} (hq : 0 ≤ q) : round64 q = roundMag q := by
  unfold round64
  rw [if_neg (not_lt.mpr hq)]

theorem round64_nonneg {q : ℚ} (hq : 0 ≤ q) : 0 ≤ round64 q := by
  rw [round64_of_nonneg hq]; exact roundMag_nonneg hq

theorem round64_le_one {q : ℚ} (hq : 0 ≤ q) (h : q ≤ 1) : round64 q ≤ 1 := by
  rw [round64_of_nonneg hq]
  have := roundMag_le_two_zpow hq (k := 0) (by norm_num) (by simpa using h)
  simpa using this

theorem round64_le_256 {q : ℚ} (hq : 0 ≤ q) (h : q ≤ 256) : round64 q ≤ 256 := by
  rw [round64_of_nonneg hq]
  have h8 : (2 : ℚ) ^ (8 : ℤ) = 256 := by norm_num
  have := roundMag_le_two_zpow hq (k := 8) (by norm_num) (by rw [h8]; exact h)
  rw [h8] at this
  exact this

theorem round64_err {q : ℚ} (hq : 0 ≤ q) (h : q ≤ 256) :
    |round64 q - q| ≤ 1 / 2 ^ 44 := by
  rw [round64_of_nonneg hq]
  have h1 := roundMag_sub_le hq
  have h2 : (2 : ℚ) ^ (-53 : ℤ) * q ≤ 2 ^ (-53 : ℤ) * 256 :=
    mul_le_mul_of_nonneg_left h (two_zpow_pos _).le
  have h3 : (2 : ℚ) ^ (-53 : ℤ) * 256 + 2 ^ (-1075 : ℤ) ≤ 1 / 2 ^ 44 := by norm_num
  exact le_trans h1 (le_trans (add_le_add_right h2 _) h3)

theorem ofRat_of_small {q : ℚ} (hq : 0 ≤ q) (h : q ≤ 256) : F64.ofRat q = some (round64 q) := by
  unfold F64.ofRat
  rw [if_pos]
  rw [abs_of_nonneg (round64_nonneg hq)]
  have h1 := round64_le_256 hq h
  have h2 : (256 : ℚ) < 2 ^ 1024 := by norm_num
  exact lt_of_le_of_lt h1 h2

/-! ## alphaBlend: every channel -/

/-- The exact weighted sum of two channels lies between them, up to the error of
the two weights. -/
theorem blend_exact_bounds (ε F B lo hi α β : ℚ) (hε0 : 0 ≤ ε)
    (hlo0 : 0 ≤ lo) (hloF : lo ≤ F) (hloB : lo ≤ B) (hFhi : F ≤ hi) (hBhi : B ≤ hi)
    (hhi : hi ≤ 255) (hα0 : 0 ≤ α) (hβ0 : 0 ≤ β)
    (hβlo : 1 - α - ε ≤ β) (hβhi : β ≤ 1 - α + ε) :
    lo - 255 * ε ≤ F * α + B * β ∧ F * α + B * β ≤ hi + 255 * ε := by
  have hhi0 : 0 ≤ hi := le_trans (le_trans hlo0 hloF) hFhi
  have hlo255 : lo ≤ 255 := le_trans (le_trans hloF hFhi) hhi
  have h1 : F * α ≤ hi * α := mul_le_mul_of_nonneg_right hFhi hα0
  have h2 : B * β ≤ hi * β := mul_le_mul_of_nonneg_right hBhi hβ0
  have h3 : hi * (α + β) ≤ hi * (1 + ε) := mul_le_mul_of_nonneg_left (by linarith) hhi0
  have h4 : hi * ε ≤ 255 * ε := mul_le_mul_of_nonneg_right hhi hε0
  have h5 : lo * α ≤ F * α := mul_le_mul_of_nonneg_right hloF hα0
  have h6 : lo * β ≤ B * β := mul_le_mul_of_nonneg_right hloB hβ0
  have h7 : lo * (1 - ε) ≤ lo * (α + β) := mul_le_mul_of_nonneg_left (by linarith) hlo0
  have h8 : lo * ε ≤ 255 * ε := mul_le_mul_of_nonneg_right hlo255 hε0
  constructor <;> linarith

theorem fin_cast_bounds (f : Fin 256) : (0 : ℚ) ≤ ((f : ℕ) : ℚ) ∧ ((f : ℕ) : ℚ) ≤ 255 := by
  have h := f.isLt
  have h1 : (f : ℕ) ≤ 255 := by omega
  exact ⟨by positivity, by exact_mod_cast h1⟩

theorem min_max_cast (f b : Fin 256) :
    (0 : ℚ) ≤ ((min ((f : ℕ) : ℤ) ((b : ℕ) : ℤ) : ℤ) : ℚ) ∧
    ((min ((f : ℕ) : ℤ) ((b : ℕ) : ℤ) : ℤ) : ℚ) ≤ ((f : ℕ) : ℚ) ∧
    ((min ((f : ℕ) : ℤ) ((b : ℕ) : ℤ) : ℤ) : ℚ) ≤ ((b : ℕ) : ℚ) ∧
    ((f : ℕ) : ℚ) ≤ ((max ((f : ℕ) : ℤ) ((b : ℕ) : ℤ) : ℤ) : ℚ) ∧
    ((b : ℕ) : ℚ) ≤ ((max ((f : ℕ) : ℤ) ((b : ℕ) : ℤ) : ℤ) : ℚ) ∧
    ((max ((f : ℕ) : ℤ) ((b : ℕ) : ℤ) : ℤ) : ℚ) ≤ 255 := by
  have h1 := f.isLt
  have h2 := b.isLt
  have e1 : (0 : ℤ) ≤ min ((f : ℕ) : ℤ) ((b : ℕ) : ℤ) := le_min (by omega) (by omega)
  have e2 : min ((f : ℕ) : ℤ) ((b : ℕ) : ℤ) ≤ ((f : ℕ) : ℤ) := min_le_left _ _
  have e3 : min ((f : ℕ) : ℤ) ((b : ℕ) : ℤ) ≤ ((b : ℕ) : ℤ) := min_le_right _ _
  have e4 : ((f : ℕ) : ℤ) ≤ max ((f : ℕ) : ℤ) ((b : ℕ) : ℤ) := le_max_left _ _
  have e5 : ((b : ℕ) : ℤ) ≤ max ((f : ℕ) : ℤ) ((b : ℕ) : ℤ) := le_max_right _ _
  have e6 : max ((f : ℕ) : ℤ) ((b : ℕ) : ℤ) ≤ 255 := max_le (by omega) (by omega)
  generalize min ((f : ℕ) : ℤ) ((b : ℕ) : ℤ) = lo at *
  generalize max ((f : ℕ) : ℤ) ((b : ℕ) : ℤ) = hi at *
  refine ⟨?_, ?_, ?_, ?_, ?_, ?_⟩
  · exact_mod_cast e1
  · exact_mod_cast e2
  · exact_mod_cast e3
  · exact_mod_cast e4
  · exact_mod_cast e5
  · exact_mod_cast e6

/-- The float value of a blended channel: it is finite, lies in `[0, 256)`, and its
integer part lies between `min f b - 1` and `max f b`. -/
theorem blendChannel_bounds (f b a : Fin 256) :
    ∃ v : ℚ, blendChannel f b (blendAlpha a) (blendInvAlpha a) = some v ∧ 0 ≤ v ∧ v < 256 ∧
      0 ≤ truncQ v ∧ min ((f : ℕ) : ℤ) ((b : ℕ) : ℤ) - 1 ≤ truncQ v ∧
      truncQ v ≤ max ((f : ℕ) : ℤ) ((b : ℕ) : ℤ) := by
  obtain ⟨hf0, hf255⟩ := fin_cast_bounds f
  obtain ⟨hb0, hb255⟩ := fin_cast_bounds b
  obtain ⟨ha0, ha255⟩ := fin_cast_bounds a
  obtain ⟨hlo0, hlof, hlob, hhif, hhib, hhi255⟩ := min_max_cast f b
  generalize min ((f : ℕ) : ℤ) ((b : ℕ) : ℤ) = lo at *
  generalize max ((f : ℕ) : ℤ) ((b : ℕ) : ℤ) = hi at *
  generalize hFdef : ((f : ℕ) : ℚ) = F at *
  generalize hBdef : ((b : ℕ) : ℚ) = B at *
  -- alpha
  have hx0 : (0 : ℚ) ≤ ((a : ℕ) : ℚ) / 255 := div_nonneg ha0 (by norm_num)
  have hx1 : ((a : ℕ) : ℚ) / 255 ≤ 1 := by rw [div_le_one (by norm_num)]; exact ha255
  have hA : blendAlpha a = some (round64 (((a : ℕ) : ℚ) / 255)) := by
    rw [blendAlpha_eq, ofRat_of_small hx0 (by linarith)]
  have hα0 := round64_nonneg hx0
  have hα1 := round64_le_one hx0 hx1
  generalize round64 (((a : ℕ) : ℚ) / 255) = α at *
  -- invAlpha
  have hy0 : (0 : ℚ) ≤ 1 - α := by linarith
  have hy1 : 1 - α ≤ 1 := by linarith
  have hB : blendInvAlpha a = some (round64 (1 - α)) := by
    rw [blendInvAlpha_eq a α hA, ofRat_of_small hy0 (by linarith)]
  have hβ0 := round64_nonneg hy0
  have hβ1 := round64_le_one hy0 hy1
  have hβe := abs_le.mp (round64_err hy0 (by linarith))
  generalize round64 (1 - α) = β at *
  -- the two products
  have hFα0 : 0 ≤ F * α := mul_nonneg hf0 hα0
  have hFα1 : F * α ≤ 255 := by
    have := mul_le_mul hf255 hα1 hα0 (by norm_num : (0 : ℚ) ≤ 255)
    linarith
  have hBβ0 : 0 ≤ B * β := mul_nonneg hb0 hβ0
  have hBβ1 : B * β ≤ 255 := by
    have := mul_le_mul hb255 hβ1 hβ0 (by norm_num : (0 : ℚ) ≤ 255)
    linarith
  have hp0 := round64_nonneg hFα0
  have hq0 := round64_nonneg hBβ0
  have hpe := abs_le.mp (round64_err hFα0 (by linarith))
  have hqe := abs_le.mp (round64_err hBβ0 (by linarith))
  have hP := ofRat_of_small hFα0 (by linarith)
  have hQ := ofRat_of_small hBβ0 (by linarith)
  generalize round64 (F * α) = p at *
  generalize round64 (B * β) = q at *
  obtain ⟨hsum_lo, hsum_hi⟩ := blend_exact_bounds (1 / 2 ^ 44) F B lo hi α β (by norm_num)
    hlo0 hlof hlob hhif hhib hhi255 hα0 hβ0 (by linarith) (by linarith)
  have hε : (258 : ℚ) * (1 / 2 ^ 44) < 1 := by norm_num
  -- the rounded sum
  have hs0 : 0 ≤ p + q := by linarith
  have hs1 : p + q ≤ 256 := by linarith
  have hS : blendChannel f b (blendAlpha a) (blendInvAlpha a) = some (round64 (p + q)) := by
    rw [hA, hB]
    exact (blendChannel_eq f b α β p q (by rw [hFdef]; exact hP)
      (by rw [hBdef]; exact hQ)).trans (ofRat_of_small hs0 hs1)
  have hsnn := round64_nonneg hs0
  have hse := abs_le.mp (round64_err hs0 hs1)
  generalize round64 (p + q) = s at *
  have hs_hi : s < hi + 1 := by linarith
  have hs_lo : (lo : ℚ) - 1 ≤ s := by linarith
  have ht : truncQ s = ⌊s⌋ := by unfold truncQ; rw [if_pos hsnn]
  refine ⟨s, hS, hsnn, by linarith, ?_, ?_, ?_⟩
  · rw [ht]; exact Int.floor_nonneg.mpr hsnn
  · rw [ht]; exact Int.le_floor.mpr (by push_cast; linarith)
  · rw [ht]
    have : ⌊s⌋ < hi + 1 := Int.floor_lt.mpr (by push_cast; linarith)
    omega

theorem toUInt8_val (P : Platform) (v : ℚ) (h0 : 0 ≤ truncQ v) (h1 : truncQ v < 256) :
    (((F64.toUInt8 P (some v) : Fin 256) : ℕ) : ℤ) = truncQ v := by
  unfold F64.toUInt8
  simp only [h0, h1, and_self, if_true]
  have h2 : (truncQ v).toNat < 256 := by omega
  simp only [Fin.ofNat, Nat.mod_eq_of_lt h2]
  exact Int.toNat_of_nonneg h0

theorem channelSpec_toUInt8 (P : Platform) (f b a : Fin 256) :
    ChannelSpec f b a (F64.toUInt8 P (blendChannel f b (blendAlpha a) (blendInvAlpha a))) := by
  obtain ⟨v, hv, h0, h256, ht0, hlo, hhi⟩ := blendChannel_bounds f b a
  have ht256 : truncQ v < 256 := by
    have h1 := f.isLt
    have h2 := b.isLt
    have : max ((f : ℕ) : ℤ) ((b : ℕ) : ℤ) ≤ 255 := max_le (by omega) (by omega)
    omega
  have hc := toUInt8_val P v ht0 ht256
  rw [hv]
  exact ⟨v, hv, h0, h256, hc, by rw [hc]; exact hlo, by rw [hc]; exact hhi⟩

/-- C6 (as stated, refuted): gray 125 at alpha 12 blended over the same gray 125
gives 124, below both inputs, while the integer part of the exact
`125*(12/255) + 125*(1 - 12/255)` is 125. -/
theorem alphaBlend_below_both :
    alphaBlend examplePlatform ⟨125, 125, 125, 12⟩ ⟨125, 125, 125, 255⟩ = ⟨124, 124, 124, 255⟩ ∧
      ⌊(125 : ℚ) * (12 / 255) + 125 * (1 - 12 / 255)⌋ = 125 ∧
      ¬ (min (125 : ℤ) 125 ≤ 124) := by
  refine ⟨?_, ?_, by decide⟩
  · unfold alphaBlend
    simp only [blend_example_alpha, blend_example_invAlpha, blend_example_channel,
      toUInt8_example]
  · norm_num

/-- C6 (amended): `alphaBlend fg bg` has alpha 255, and each colour channel is the
integer part of `float64(fg.c)*alpha + float64(bg.c)*invAlpha` evaluated in float64,
a value within `[0, 256)`, so the conversion to 8 bits never overflows; the output
channel lies between `min fg.c bg.c - 1` and `max fg.c bg.c`. -/
theorem alphaBlend_channels (P : Platform) (fg bg : RGBA) :
    (alphaBlend P fg bg).A = 255 ∧
      ChannelSpec fg.R bg.R fg.A (alphaBlend P fg bg).R ∧
      ChannelSpec fg.G bg.G fg.A (alphaBlend P fg bg).G ∧
      ChannelSpec fg.B bg.B fg.A (alphaBlend P fg bg).B :=
  ⟨rfl, channelSpec_toUInt8 P _ _ _, channelSpec_toUInt8 P _ _ _, channelSpec_toUInt8 P _ _ _⟩

/-! ## The shimmer brightness -/

theorem abs_round64_le_two_zpow {q : ℚ} {k : ℤ} (hk : -1022 ≤ k) (h : |q| ≤ 2 ^ k) :
    |round64 q| ≤ 2 ^ k := by
  unfold round64
  split_ifs with hq
  · have h0 : 0 ≤ -q := by linarith
    rw [abs_neg, abs_of_nonneg (roundMag_nonneg h0)]
    exact roundMag_le_two_zpow h0 hk (by rwa [abs_of_neg hq] at h)
  · have h0 : 0 ≤ q := not_lt.mp hq
    rw [abs_of_nonneg (roundMag_nonneg h0)]
    exact roundMag_le_two_zpow h0 hk (by rwa [abs_of_nonneg h0] at h)

theorem ofRat_of_abs_le_half {q : ℚ} (h : |q| ≤ 1 / 2) :
    F64.ofRat q = some (round64 q) ∧ |round64 q| ≤ 1 / 2 := by
  have h2 : (2 : ℚ) ^ (-1 : ℤ) = 1 / 2 := by norm_num
  have h1 := abs_round64_le_two_zpow (q := q) (k := -1) (by norm_num) (by rw [h2]; exact h)
  rw [h2] at h1
  refine ⟨?_, h1⟩
  unfold F64.ofRat
  rw [if_pos]
  have h3 : (1 / 2 : ℚ) < 2 ^ 1024 := by norm_num
  exact lt_of_le_of_lt h1 h3

theorem truncQ_bounds_of_lt_256 {v : ℚ} (h0 : 0 ≤ v) (h1 : v < 256) :
    0 ≤ truncQ v ∧ truncQ v ≤ 255 := by
  have ht : truncQ v = ⌊v⌋ := by unfold truncQ; rw [if_pos h0]
  rw [ht]
  refine ⟨Int.floor_nonneg.mpr h0, ?_⟩
  have : ⌊v⌋ < 256 := Int.floor_lt.mpr (by push_cast; exact h1)
  omega

/-- C7 (as stated, refuted): at the finite shimmer speed `2^1023`, frame 1 of 1 and
phase 0 the product `shimmerSpeed * 2` overflows, the argument of `math.Sin` is not
finite, and the brightness is a NaN, not a number of `[0, 1]`. -/
theorem shimmerBrightness_overflow :
    shimmerBrightness examplePlatform 1 1 (2 ^ 1023) (some 0) = none ∧
      ¬ ∃ b : ℚ, shimmerBrightness examplePlatform 1 1 (2 ^ 1023) (some 0) = some b ∧
        0 ≤ b ∧ b ≤ 1 := by
  have hr : round64 ((2 : ℚ) ^ 1023 * 2) = ((2 ^ 52 : ℤ) : ℚ) * 2 ^ ((1024 : ℤ) - 52) :=
    round64_eq_of_round _ 1024 (2 ^ 52) (by norm_num) (by norm_num) (by norm_num)
      (roundHalfEven_eq_of_abs_lt _ _ (by norm_num [abs_lt]))
  have h1 : F64.mul (some ((2 : ℚ) ^ 1023)) (some 2) = none := by
    show F64.ofRat ((2 : ℚ) ^ 1023 * 2) = none
    unfold F64.ofRat
    rw [hr, if_neg]
    norm_num
  have h2 : shimmerBrightness examplePlatform 1 1 (2 ^ 1023) (some 0) = none := by
    unfold shimmerBrightness shimmerArg centerFrame
    rw [h1]
    rfl
  refine ⟨h2, ?_⟩
  rintro ⟨b, hb, -⟩
  rw [h2] at hb
  exact Option.noConfusion hb

/-- C7 (amended): whenever the argument `centerFrame + dot.Phase` of `math.Sin` is
finite (no operand overflows; this excludes `totalFrames = 0`) and `math.Sin` returns
values of `[-1, 1]`, the brightness `0.5 + 0.5*sin(...)` is a number of `[0, 1]`, the
quantised `alpha * 255` is finite with an integer part within `0..255`, and the
8-bit alpha of the dot is that integer part: the conversion does not wrap. -/
theorem shimmerBrightness_range (P : Platform) (hsin : ∀ x, |P.sin x| ≤ 1)
    (frame totalFrames : ℤ) (shimmerSpeed : ℚ) (phase : F64)
    (hfin : shimmerArg frame totalFrames shimmerSpeed phase ≠ none) :
    ∃ b v : ℚ, shimmerBrightness P frame totalFrames shimmerSpeed phase = some b ∧
      0 ≤ b ∧ b ≤ 1 ∧
      shimmerQuantised P frame totalFrames shimmerSpeed phase = some v ∧
      0 ≤ truncQ v ∧ truncQ v ≤ 255 ∧
      (((F64.toUInt8 P (shimmerQuantised P frame totalFrames shimmerSpeed phase) : Fin 256)
        : ℕ) : ℤ) = truncQ v := by
  obtain ⟨θ, hθ⟩ := Option.ne_none_iff_exists'.mp hfin
  have hs := abs_le.mp (hsin θ)
  -- 0.5 * sin
  have hhalf : |1 / 2 * P.sin θ| ≤ 1 / 2 := by
    rw [abs_le]; constructor <;> linarith
  obtain ⟨hH, hHb⟩ := ofRat_of_abs_le_half hhalf
  have hHb2 := abs_le.mp hHb
  -- 0.5 + 0.5 * sin
  have hb0 : 0 ≤ 1 / 2 + round64 (1 / 2 * P.sin θ) := by linarith
  have hb1 : 1 / 2 + round64 (1 / 2 * P.sin θ) ≤ 1 := by linarith
  have hB : shimmerBrightness P frame totalFrames shimmerSpeed phase
      = some (round64 (1 / 2 + round64 (1 / 2 * P.sin θ))) := by
    unfold shimmerBrightness
    rw [hθ]
    simp only [F64.sin, Option.map_some', F64.mul, hH, F64.add]
    exact ofRat_of_small hb0 (by linarith)
  have hbn := round64_nonneg hb0
  have hbl := round64_le_one hb0 hb1
  generalize round64 (1 / 2 + round64 (1 / 2 * P.sin θ)) = b at *
  -- alpha * 255
  have hv0 : 0 ≤ b * 255 := by positivity
  have hv1 : b * 255 ≤ 255 := by linarith
  have hV : shimmerQuantised P frame totalFrames shimmerSpeed phase
      = some (round64 (b * 255)) := by
    unfold shimmerQuantised
    rw [hB]
    simp only [F64.mul]
    exact ofRat_of_small hv0 (by linarith)
  have hvn := round64_nonneg hv0
  have hve := abs_le.mp (round64_err hv0 (by linarith))
  have hsmall : (1 : ℚ) / 2 ^ 44 < 1 := by norm_num
  have hv256 : round64 (b * 255) < 256 := by linarith
  obtain ⟨ht0, ht1⟩ := truncQ_bounds_of_lt_256 hvn hv256
  refine ⟨b, round64 (b * 255), hB, hbn, hbl, hV, ht0, ht1, ?_⟩
  rw [hV]
  exact toUInt8_val P _ ht0 (by omega)

theorem shimmerArg_example : shimmerArg 1 150 9 (some 0) ≠ none := by
  have e1 : F64.mul (some (9 : ℚ)) (some 2) = some 18 := by
    show F64.ofRat ((9 : ℚ) * 2) = some 18
    have h := ofRat_natCast 18 (by norm_num)
    norm_num at h ⊢
    exact h
  have hp0 : (0 : ℚ) ≤ 18 * pi64 := by norm_num [pi64]
  have hp1 : (18 : ℚ) * pi64 ≤ 256 := by norm_num [pi64]
  have e2 : F64.mul (some (18 : ℚ)) (some pi64) = some (round64 (18 * pi64)) :=
    ofRat_of_small hp0 hp1
  have e3 : F64.ofInt 1 = some 1 := by
    have h := ofRat_natCast 1 (by norm_num)
    unfold F64.ofInt
    norm_num at h ⊢
    exact h
  have e4 : F64.ofInt 150 = some 150 := by
    have h := ofRat_natCast 150 (by norm_num)
    unfold F64.ofInt
    norm_num at h ⊢
    exact h
  have hd0 : (0 : ℚ) ≤ 1 / 150 := by norm_num
  have hd1 : (1 : ℚ) / 150 ≤ 1 := by norm_num
  have e5 : F64.div (some (1 : ℚ)) (some 150) = some (round64 (1 / 150)) := by
    unfold F64.div
    simp only
    rw [if_neg (by norm_num)]
    exact ofRat_of_small hd0 (by linarith)
  have hr0 := round64_nonneg hp0
  have hr1 := round64_le_256 hp0 hp1
  have hs0 := round64_nonneg hd0
  have hs1 := round64_le_one hd0 hd1
  have hm0 : 0 ≤ round64 (18 * pi64) * round64 (1 / 150) := mul_nonneg hr0 hs0
  have hm1 : round64 (18 * pi64) * round64 (1 / 150) ≤ 256 := by
    have := mul_le_mul hr1 hs1 hs0 (by norm_num : (0 : ℚ) ≤ 256)
    linarith
  have e6 : F64.mul (some (round64 (18 * pi64))) (some (round64 (1 / 150)))
      = some (round64 (round64 (18 * pi64) * round64 (1 / 150))) := ofRat_of_small hm0 hm1
  have ht0 := round64_nonneg hm0
  have ht1 := round64_le_256 hm0 hm1
  have e7 : F64.add (some (round64 (round64 (18 * pi64) * round64 (1 / 150)))) (some 0)
      = some (round64 (round64 (round64 (18 * pi64) * round64 (1 / 150)) + 0)) :=
    ofRat_of_small (by linarith) (by linarith)
  unfold shimmerArg centerFrame
  rw [e1, e2, e3, e4, e5, e6, e7]
  exact Option.some_ne_none _

theorem shimmerBrightness_range_witness :
    ∃ b v : ℚ, shimmerBrightness examplePlatform 1 150 9 (some 0) = some b ∧
      0 ≤ b ∧ b ≤ 1 ∧
      shimmerQuantised examplePlatform 1 150 9 (some 0) = some v ∧
      0 ≤ truncQ v ∧ truncQ v ≤ 255 ∧
      (((F64.toUInt8 examplePlatform (shimmerQuantised examplePlatform 1 150 9 (some 0))
        : Fin 256) : ℕ) : ℤ) = truncQ v :=
  shimmerBrightness_range examplePlatform (fun _ => by simp [examplePlatform]) 1 150 9 (some 0)
    shimmerArg_example

/-! ## ensureEvenSize -/

/-- C1 (as stated, refuted): an image of width 1 and height 0 comes back with
width 0, since `imaging.New(2, 0, ...)` is the empty image: the width has not grown
by 0 or 1. -/
theorem ensureEvenSize_empty_odd :
    (0 : ℤ) ≤ 1 ∧ (0 : ℤ) ≤ 0 ∧ (ensureEvenSize ⟨1, 0, fun _ _ => RGBA.zero⟩).w = 0 ∧
      ¬ ((ensureEvenSize ⟨1, 0, fun _ _ => RGBA.zero⟩).w - 1 = 0 ∨
         (ensureEvenSize ⟨1, 0, fun _ _ => RGBA.zero⟩).w - 1 = 1) := by
  have h : (ensureEvenSize ⟨1, 0, fun _ _ => RGBA.zero⟩).w = 0 := by
    have t1 : Int.tmod 1 2 = 1 := by decide
    have t0 : Int.tmod 0 2 = 0 := by decide
    simp [ensureEvenSize, imagingPasteCenter, imagingNew, t1, t0]
  refine ⟨by decide, by decide, h, ?_⟩
  rw [h]
  decide

theorem ensureEvenSize_dims (img : Image) (hw : 0 ≤ img.w) (hh : 0 ≤ img.h)
    (hne : (0 < img.w ∧ 0 < img.h) ∨ (img.w % 2 = 0 ∧ img.h % 2 = 0)) :
    (ensureEvenSize img).w = img.w + img.w % 2 ∧ (ensureEvenSize img).h = img.h + img.h % 2 := by
  have tw : img.w.tmod 2 = img.w % 2 := Int.tmod_eq_emod hw (by norm_num)
  have th : img.h.tmod 2 = img.h % 2 := Int.tmod_eq_emod hh (by norm_num)
  unfold ensureEvenSize
  simp only [tw, th]
  split_ifs with he
  · rw [he.1, he.2]; simp
  · have hpos : 0 < img.w ∧ 0 < img.h := by
      rcases hne with h | h
      · exact h
      · exact absurd h he
    have h1 : ¬ (img.w + img.w % 2 ≤ 0 ∨ img.h + img.h % 2 ≤ 0) := by omega
    simp [imagingPasteCenter, imagingNew, h1]

/-- C1 (amended): for an image of width `w ≥ 0` and height `h ≥ 0` that is not empty
(`w > 0` and `h > 0`) or has both dimensions even, the image returned by
`ensureEvenSize` has an even width `nw` and an even height `nh`, with `nw - w` and
`nh - h` in `{0, 1}`, a dimension growing by one pixel exactly when it is odd. -/
theorem ensureEvenSize_even (img : Image) (hw : 0 ≤ img.w) (hh : 0 ≤ img.h)
    (hne : (0 < img.w ∧ 0 < img.h) ∨ (img.w % 2 = 0 ∧ img.h % 2 = 0)) :
    (ensureEvenSize img).w % 2 = 0 ∧ (ensureEvenSize img).h % 2 = 0 ∧
      ((ensureEvenSize img).w - img.w = 0 ∨ (ensureEvenSize img).w - img.w = 1) ∧
      ((ensureEvenSize img).h - img.h = 0 ∨ (ensureEvenSize img).h - img.h = 1) ∧
      ((ensureEvenSize img).w - img.w = 1 ↔ img.w % 2 = 1) ∧
      ((ensureEvenSize img).h - img.h = 1 ↔ img.h % 2 = 1) := by
  obtain ⟨h1, h2⟩ := ensureEvenSize_dims img hw hh hne
  rw [h1, h2]
  omega

theorem ensureEvenSize_even_witness :
    (ensureEvenSize ⟨101, 100, fun _ _ => RGBA.zero⟩).w % 2 = 0 ∧
      (ensureEvenSize ⟨101, 100, fun _ _ => RGBA.zero⟩).h % 2 = 0 ∧
      ((ensureEvenSize ⟨101, 100, fun _ _ => RGBA.zero⟩).w - 101 = 0 ∨
        (ensureEvenSize ⟨101, 100, fun _ _ => RGBA.zero⟩).w - 101 = 1) ∧
      ((ensureEvenSize ⟨101, 100, fun _ _ => RGBA.zero⟩).h - 100 = 0 ∨
        (ensureEvenSize ⟨101, 100, fun _ _ => RGBA.zero⟩).h - 100 = 1) ∧
      ((ensureEvenSize ⟨101, 100, fun _ _ => RGBA.zero⟩).w - 101 = 1 ↔ (101 : ℤ) % 2 = 1) ∧
      ((ensureEvenSize ⟨101, 100, fun _ _ => RGBA.zero⟩).h - 100 = 1 ↔ (100 : ℤ) % 2 = 1) :=
  ensureEvenSize_even ⟨101, 100, fun _ _ => RGBA.zero⟩ (by decide) (by decide)
    (Or.inl ⟨by decide, by decide⟩)

/-! ## generateShimmerDots -/

theorem Intn_spec (r : Rng) (n : ℤ) (hn : 0 < n) :
    ∃ v r1, r.Intn n = some (v, r1) ∧ 0 ≤ v ∧ v < n := by
  refine ⟨(r.raw r.pos : ℤ) % n, { r with pos := r.pos + 1 }, ?_, ?_, ?_⟩
  · unfold Rng.Intn
    rw [if_neg (by omega)]
  · exact Int.emod_nonneg _ (by omega)
  · exact Int.emod_lt_of_pos _ hn

theorem intToUInt8_val (n : ℤ) (h0 : 0 ≤ n) (h1 : n ≤ 255) :
    (((intToUInt8 n : Fin 256) : ℕ) : ℤ) = n := by
  unfold intToUInt8
  have h2 : n % 256 = n := Int.emod_eq_of_lt h0 (by omega)
  have h3 : n.toNat < 256 := by omega
  simp only [h2, Fin.ofNat, Nat.mod_eq_of_lt h3]
  exact Int.toNat_of_nonneg h0

/-- What `generateShimmerDots` promises of a dot. -/
theorem generateDot_spec (img : Image) (grayMin grayMax : ℤ) (r : Rng)
    (hw : 0 < img.w) (hh : 0 < img.h)
    (h0 : 0 ≤ grayMin) (h1 : grayMin ≤ grayMax) (h2 : grayMax ≤ 255) :
    ∃ d r1, generateDot img grayMin grayMax r = some (d, r1) ∧
      0 ≤ d.X ∧ d.X < img.w ∧ 0 ≤ d.Y ∧ d.Y < img.h ∧
      grayMin ≤ ((d.Gray : ℕ) : ℤ) ∧ ((d.Gray : ℕ) : ℤ) ≤ grayMax := by
  obtain ⟨g, r1, hg, hg0, hg1⟩ := Intn_spec r (grayMax - grayMin + 1) (by omega)
  obtain ⟨x, r2, hx, hx0, hx1⟩ := Intn_spec r1 img.w hw
  obtain ⟨y, r3, hy, hy0, hy1⟩ := Intn_spec r2 img.h hh
  have hgray := intToUInt8_val (grayMin + g) (by omega) (by omega)
  refine ⟨{ X := x, Y := y,
             Phase := F64.mul (F64.mul (some r3.Float64.1) (some 2)) (some pi64),
             Gray := intToUInt8 (grayMin + g) }, r3.Float64.2, ?_, hx0, hx1, hy0, hy1, ?_, ?_⟩
  · unfold generateDot
    simp only [hg, hx, hy]
  · show grayMin ≤ (((intToUInt8 (grayMin + g) : Fin 256) : ℕ) : ℤ)
    rw [hgray]; omega
  · show (((intToUInt8 (grayMin + g) : Fin 256) : ℕ) : ℤ) ≤ grayMax
    rw [hgray]; omega

theorem generateDotsLoop_spec (img : Image) (grayMin grayMax : ℤ)
    (hw : 0 < img.w) (hh : 0 < img.h)
    (h0 : 0 ≤ grayMin) (h1 : grayMin ≤ grayMax) (h2 : grayMax ≤ 255) (n : ℕ) :
    ∀ r : Rng, ∃ dots r1, generateDotsLoop img grayMin grayMax n r = some (dots, r1) ∧
      dots.length = n ∧
      ∀ d ∈ dots, 0 ≤ d.X ∧ d.X < img.w ∧ 0 ≤ d.Y ∧ d.Y < img.h ∧
        grayMin ≤ ((d.Gray : ℕ) : ℤ) ∧ ((d.Gray : ℕ) : ℤ) ≤ grayMax := by
  induction n with
  | zero =>
    intro r
    exact ⟨[], r, rfl, rfl, by simp⟩
  | succ k ih =>
    intro r
    obtain ⟨d, r1, hd, hspec⟩ := generateDot_spec img grayMin grayMax r hw hh h0 h1 h2
    obtain ⟨ds, r2, hds, hlen, hall⟩ := ih r1
    refine ⟨d :: ds, r2, ?_, by simp [hlen], ?_⟩
    · simp only [generateDotsLoop, hd, hds]
    · intro e he
      rcases List.mem_cons.mp he with h | h
      · rw [h]; exact hspec
      · exact hall e h

/-- C3: for an image of width `w > 0` and height `h > 0`, a count `≥ 0`, a gray
range `0 ≤ grayMin ≤ grayMax ≤ 255` and every state of the random source,
`generateShimmerDots` returns (it does not panic) exactly `count` dots, each with
`0 ≤ X < w`, `0 ≤ Y < h` and `grayMin ≤ Gray ≤ grayMax`. -/
theorem generateShimmerDots_spec (img : Image) (count grayMin grayMax : ℤ) (r : Rng)
    (hw : 0 < img.w) (hh : 0 < img.h) (hc : 0 ≤ count)
    (h0 : 0 ≤ grayMin) (h1 : grayMin ≤ grayMax) (h2 : grayMax ≤ 255) :
    ∃ dots r1, generateShimmerDots img count grayMin grayMax r = some (dots, r1) ∧
      (dots.length : ℤ) = count ∧
      ∀ d ∈ dots, 0 ≤ d.X ∧ d.X < img.w ∧ 0 ≤ d.Y ∧ d.Y < img.h ∧
        grayMin ≤ ((d.Gray : ℕ) : ℤ) ∧ ((d.Gray : ℕ) : ℤ) ≤ grayMax := by
  obtain ⟨dots, r1, hd, hlen, hall⟩ :=
    generateDotsLoop_spec img grayMin grayMax hw hh h0 h1 h2 count.toNat r
  refine ⟨dots, r1, ?_, ?_, hall⟩
  · unfold generateShimmerDots
    rw [if_neg (by omega), hd]
  · rw [hlen]; exact Int.toNat_of_nonneg hc

theorem generateShimmerDots_spec_witness :
    ∃ dots r1, generateShimmerDots ⟨102, 100, fun _ _ => RGBA.zero⟩ 40 220 250
        ⟨fun n => 7 * n + 3, 0⟩ = some (dots, r1) ∧
      (dots.length : ℤ) = 40 ∧
      ∀ d ∈ dots, 0 ≤ d.X ∧ d.X < (102 : ℤ) ∧ 0 ≤ d.Y ∧ d.Y < (100 : ℤ) ∧
        (220 : ℤ) ≤ ((d.Gray : ℕ) : ℤ) ∧ ((d.Gray : ℕ) : ℤ) ≤ 250 :=
  generateShimmerDots_spec ⟨102, 100, fun _ _ => RGBA.zero⟩ 40 220 250 ⟨fun n => 7 * n + 3, 0⟩
    (by decide) (by decide) (by decide) (by decide) (by decide) (by decide)

/-! ## The overlay colour -/

theorem abs_lt_of_truncQ (v : ℚ) (h0 : 0 ≤ truncQ v) (h1 : truncQ v ≤ 255) : |v| < 256 := by
  unfold truncQ at h0 h1
  split_ifs at h0 h1 with hv
  · rw [abs_of_nonneg hv]
    have : ⌊v⌋ < 256 := by omega
    have h2 := Int.floor_lt.mp this
    exact_mod_cast h2
  · have hneg : v < 0 := not_le.mp hv
    rw [abs_of_neg hneg]
    have h2 : (-1 : ℤ) < ⌈v⌉ := by omega
    have h3 := Int.lt_ceil.mp h2
    push_cast at h3
    linarith

theorem overlay_trunc_bounds (darkenPercent : ℚ) (h0 : 0 ≤ darkenPercent)
    (h1 : darkenPercent ≤ 1) :
    0 ≤ truncQ (round64 (255 * darkenPercent)) ∧
      truncQ (round64 (255 * darkenPercent)) ≤ 255 := by
  have hv0 : 0 ≤ 255 * darkenPercent := by positivity
  have hv1 : 255 * darkenPercent ≤ 255 := by linarith
  have hvn := round64_nonneg hv0
  have hve := abs_le.mp (round64_err hv0 (by linarith))
  have hsmall : (1 : ℚ) / 2 ^ 44 < 1 := by norm_num
  have hv256 : round64 (255 * darkenPercent) < 256 := by linarith
  exact truncQ_bounds_of_lt_256 hvn hv256

/-- When the integer part of the float64 product `255 * darkenPercent` is within
`0..255`, the overlay colour is black with that integer part as its alpha. -/
theorem overlayColor_spec (P : Platform) (darkenPercent : ℚ)
    (hlo : 0 ≤ truncQ (round64 (255 * darkenPercent)))
    (hhi : truncQ (round64 (255 * darkenPercent)) ≤ 255) :
    ∃ A : Fin 256, ((A : ℕ) : ℤ) = truncQ (round64 (255 * darkenPercent)) ∧
      overlayColor P darkenPercent = ⟨0, 0, 0, A⟩ := by
  have habs := abs_lt_of_truncQ _ hlo hhi
  have hV : F64.mul (some (255 : ℚ)) (some darkenPercent)
      = some (round64 (255 * darkenPercent)) := by
    show F64.ofRat (255 * darkenPercent) = some (round64 (255 * darkenPercent))
    unfold F64.ofRat
    rw [if_pos]
    have h2 : (256 : ℚ) < 2 ^ 1024 := by norm_num
    exact lt_trans habs h2
  have hI : F64.toInt P (some (round64 (255 * darkenPercent)))
      = truncQ (round64 (255 * darkenPercent)) := by
    unfold F64.toInt
    simp only
    rw [if_pos ⟨by omega, by omega⟩]
  refine ⟨intToUInt8 (truncQ (round64 (255 * darkenPercent))),
    intToUInt8_val _ hlo hhi, ?_⟩
  unfold overlayColor
  simp only [hV, hI]

theorem roundHalfEven_eq_of_tie_up (q : ℚ) (m : ℤ) (h : q = m - 1 / 2) (hm : m % 2 = 0) :
    roundHalfEven q = m := by
  have hf : ⌊q⌋ = m - 1 := Int.floor_eq_iff.mpr ⟨by push_cast; linarith, by push_cast; linarith⟩
  have hodd : (m - 1) % 2 ≠ 0 := by omega
  unfold roundHalfEven
  rw [hf, if_neg (by push_cast; linarith), if_neg (by push_cast; linarith), if_neg hodd]
  ring

theorem truncQ_of_floor (v : ℚ) (n : ℤ) (h0 : 0 ≤ v) (h1 : (n : ℚ) ≤ v) (h2 : v < n + 1) :
    truncQ v = n := by
  unfold truncQ
  rw [if_pos h0]
  exact Int.floor_eq_iff.mpr ⟨h1, h2⟩

/-- The overlay at `darkenPercent = 1.3`: the product is 331.5 and the alpha is the
low byte 75 of 331. -/
theorem overlay_example_wrap :
    round64 (255 * darken13) = 663 / 2 ∧ truncQ (round64 (255 * darken13)) = 331 ∧
      overlayColor examplePlatform darken13 = ⟨0, 0, 0, 75⟩ := by
  have hr : round64 (255 * darken13) = ((5831809673723904 : ℤ) : ℚ) * 2 ^ ((8 : ℤ) - 52) :=
    round64_eq_of_round _ 8 5831809673723904 (by norm_num) (by norm_num [darken13])
      (by norm_num [darken13])
      (roundHalfEven_eq_of_abs_lt _ _ (by norm_num [darken13, abs_lt]))
  have hr2 : round64 (255 * darken13) = 663 / 2 := by rw [hr]; norm_num
  have ht : truncQ (663 / 2 : ℚ) = 331 :=
    truncQ_of_floor _ 331 (by norm_num) (by norm_num) (by norm_num)
  have hV : F64.mul (some (255 : ℚ)) (some darken13) = some (663 / 2) := by
    show F64.ofRat (255 * darken13) = some (663 / 2)
    unfold F64.ofRat
    rw [hr2, if_pos (by norm_num [abs_lt])]
  refine ⟨hr2, by rw [hr2]; exact ht, ?_⟩
  unfold overlayColor
  simp only [hV]
  have hI : F64.toInt examplePlatform (some (663 / 2 : ℚ)) = 331 := by
    unfold F64.toInt
    simp only [ht]
    norm_num
  rw [hI]
  decide

/-- The overlay at the float64 nearest to `1/3`: the exact product is below 85, the
float64 product is 85. -/
theorem overlay_example_rounding :
    overlayColor examplePlatform darkenThird = ⟨0, 0, 0, 85⟩ ∧
      truncQ ((255 : ℚ) * darkenThird) = 84 := by
  have hr : round64 (255 * darkenThird)
      = ((5981343255101440 : ℤ) : ℚ) * 2 ^ ((6 : ℤ) - 52) :=
    round64_eq_of_round _ 6 5981343255101440 (by norm_num) (by norm_num [darkenThird])
      (by norm_num [darkenThird])
      (roundHalfEven_eq_of_abs_lt _ _ (by norm_num [darkenThird, abs_lt]))
  have hr2 : round64 (255 * darkenThird) = 85 := by rw [hr]; norm_num
  have ht : truncQ (85 : ℚ) = 85 :=
    truncQ_of_floor _ 85 (by norm_num) (by norm_num) (by norm_num)
  have hV : F64.mul (some (255 : ℚ)) (some darkenThird) = some 85 := by
    show F64.ofRat (255 * darkenThird) = some 85
    unfold F64.ofRat
    rw [hr2, if_pos (by norm_num [abs_lt])]
  refine ⟨?_, truncQ_of_floor _ 84 (by norm_num [darkenThird]) (by norm_num [darkenThird])
    (by norm_num [darkenThird])⟩
  unfold overlayColor
  simp only [hV]
  have hI : F64.toInt examplePlatform (some (85 : ℚ)) = 85 := by
    unfold F64.toInt
    simp only [ht]
    norm_num
  rw [hI]
  decide

/-! ## drawShimmerFrame: the loops as region updates -/

theorem regionUpdate_point (g : RGBA → RGBA) (c : Prop) [Decidable c] (px py : ℤ) :
    RegionUpdate g (fun x y => c ∧ x = px ∧ y = py)
      (fun o => if c then o.SetRGBA px py (g (o.RGBAAt px py)) else o) := by
  intro o
  by_cases hc : c
  · by_cases hin : o.inBounds px py
    · have e : (if c then o.SetRGBA px py (g (o.RGBAAt px py)) else o) =
          { o with pix := fun x1 y1 => if x1 = px ∧ y1 = py then g (o.pix px py)
                                       else o.pix x1 y1 } := by
        simp only [hc, if_true, Image.SetRGBA, hin, Image.RGBAAt]
      simp only [e]
      refine ⟨trivial, trivial, ?_⟩
      intro x y
      constructor
      · rintro ⟨⟨-, hx, hy⟩, -⟩
        rw [if_pos ⟨hx, hy⟩, hx, hy]
      · intro hn
        have : ¬ (x = px ∧ y = py) := by
          rintro ⟨hx, hy⟩
          exact hn ⟨⟨hc, hx, hy⟩, by rw [hx, hy]; exact hin⟩
        rw [if_neg this]
    · have e : (if c then o.SetRGBA px py (g (o.RGBAAt px py)) else o) = o := by
        simp only [hc, if_true, Image.SetRGBA, hin, if_false]
      simp only [e]
      refine ⟨trivial, trivial, ?_⟩
      intro x y
      constructor
      · rintro ⟨⟨-, hx, hy⟩, hb⟩
        rw [hx, hy] at hb
        exact absurd hb hin
      · intro _
        trivial
  · have e : (if c then o.SetRGBA px py (g (o.RGBAAt px py)) else o) = o := by
      simp only [hc, if_false]
    simp only [e]
    refine ⟨trivial, trivial, ?_⟩
    intro x y
    exact ⟨fun h => absurd h.1.1 hc, fun _ => trivial⟩

theorem regionUpdate_congr (g : RGBA → RGBA) (R R1 : ℤ → ℤ → Prop) (f : Image → Image)
    (h : RegionUpdate g R f) (hR : ∀ o : Image, ∀ x y, o.inBounds x y → (R x y ↔ R1 x y)) :
    RegionUpdate g R1 f := by
  intro o
  obtain ⟨hw, hh, hp⟩ := h o
  refine ⟨hw, hh, fun x y => ⟨?_, ?_⟩⟩
  · rintro ⟨h1, hb⟩
    exact (hp x y).1 ⟨(hR o x y hb).mpr h1, hb⟩
  · intro hn
    exact (hp x y).2 (fun ⟨h1, hb⟩ => hn ⟨(hR o x y hb).mp h1, hb⟩)

theorem inBounds_congr (o1 o2 : Image) (hw : o1.w = o2.w) (hh : o1.h = o2.h) (x y : ℤ) :
    o1.inBounds x y ↔ o2.inBounds x y := by
  unfold Image.inBounds
  rw [hw, hh]

/-- A loop over `k < n` whose body updates the region `R k`, the regions being
pairwise disjoint, updates the union of the regions. -/
theorem regionUpdate_foldl (g : RGBA → RGBA) (R : ℕ → ℤ → ℤ → Prop) (f : ℕ → Image → Image)
    (hf : ∀ k, RegionUpdate g (R k) (f k))
    (hdisj : ∀ j k x y, R j x y → R k x y → j = k) (n : ℕ) :
    RegionUpdate g (fun x y => ∃ k, k < n ∧ R k x y)
      (fun o => (List.range n).foldl (fun o1 k => f k o1) o) := by
  induction n with
  | zero =>
    intro o
    simp only [List.range_zero, List.foldl_nil]
    refine ⟨trivial, trivial, fun x y => ⟨?_, fun _ => trivial⟩⟩
    rintro ⟨⟨k, hk, -⟩, -⟩
    exact absurd hk (Nat.not_lt_zero k)
  | succ n ih =>
    intro o
    simp only [List.range_succ, List.foldl_append, List.foldl_cons, List.foldl_nil]
    obtain ⟨hw, hh, hp⟩ := ih o
    simp only at hw hh hp
    generalize (List.range n).foldl (fun o1 k => f k o1) o = prev at hw hh hp
    obtain ⟨hw1, hh1, hp1⟩ := hf n prev
    refine ⟨hw1.trans hw, hh1.trans hh, fun x y => ⟨?_, ?_⟩⟩
    · rintro ⟨⟨k, hk, hRk⟩, hb⟩
      have hbp : prev.inBounds x y := (inBounds_congr prev o hw hh x y).mpr hb
      rcases Nat.lt_succ_iff_lt_or_eq.mp hk with hlt | heq
      · have hnR : ¬ (R n x y ∧ prev.inBounds x y) := by
          rintro ⟨hRn, -⟩
          have := hdisj k n x y hRk hRn
          omega
        rw [(hp1 x y).2 hnR]
        exact (hp x y).1 ⟨⟨k, hlt, hRk⟩, hb⟩
      · rw [heq] at hRk
        rw [(hp1 x y).1 ⟨hRk, hbp⟩]
        have hnR : ¬ ((∃ j, j < n ∧ R j x y) ∧ o.inBounds x y) := by
          rintro ⟨⟨j, hj, hRj⟩, -⟩
          have := hdisj j n x y hRj hRk
          omega
        rw [(hp x y).2 hnR]
    · intro hn
      have hnR : ¬ (R n x y ∧ prev.inBounds x y) := by
        rintro ⟨hRn, hbp⟩
        exact hn ⟨⟨n, Nat.lt_succ_self n, hRn⟩, (inBounds_congr prev o hw hh x y).mp hbp⟩
      rw [(hp1 x y).2 hnR]
      apply (hp x y).2
      rintro ⟨⟨j, hj, hRj⟩, hb⟩
      exact hn ⟨⟨j, Nat.lt_succ_of_lt hj, hRj⟩, hb⟩

/-- The loops over `dx` and `dy` for one dot blend its colour into the pixels of its
square `[X, X+dotSize) × [Y, Y+dotSize)`, clipped to the image. -/
theorem drawDot_regionUpdate (P : Platform) (w h dotSize : ℤ) (color : RGBA)
    (dot : shimmerDot) :
    RegionUpdate (alphaBlend P color)
      (fun x y => covers dotSize dot x y ∧ x < w ∧ y < h)
      (drawDot P w h dotSize color dot) := by
  have inner : ∀ dx : ℕ, RegionUpdate (alphaBlend P color)
      (fun x y => ∃ dy, dy < dotSize.toNat ∧
        ((dot.X + dx < w ∧ dot.Y + dy < h) ∧ x = dot.X + dx ∧ y = dot.Y + dy))
      (fun o => (List.range dotSize.toNat).foldl (fun o1 (dy : ℕ) =>
        if dot.X + dx < w ∧ dot.Y + dy < h then
          o1.SetRGBA (dot.X + dx) (dot.Y + dy)
            (alphaBlend P color (o1.RGBAAt (dot.X + dx) (dot.Y + dy)))
        else o1) o) := by
    intro dx
    apply regionUpdate_foldl (alphaBlend P color)
      (fun dy x y => (dot.X + dx < w ∧ dot.Y + dy < h) ∧ x = dot.X + dx ∧ y = dot.Y + dy)
      (fun dy o1 => if dot.X + dx < w ∧ dot.Y + dy < h then
          o1.SetRGBA (dot.X + dx) (dot.Y + dy)
            (alphaBlend P color (o1.RGBAAt (dot.X + dx) (dot.Y + dy)))
        else o1)
    · intro dy
      exact regionUpdate_point (alphaBlend P color) _ _ _
    · rintro j k x y ⟨-, -, hj⟩ ⟨-, -, hk⟩
      omega
  have outer := regionUpdate_foldl (alphaBlend P color)
    (fun dx x y => ∃ dy, dy < dotSize.toNat ∧
        ((dot.X + dx < w ∧ dot.Y + dy < h) ∧ x = dot.X + dx ∧ y = dot.Y + dy))
    (fun dx o => (List.range dotSize.toNat).foldl (fun o1 (dy : ℕ) =>
        if dot.X + dx < w ∧ dot.Y + dy < h then
          o1.SetRGBA (dot.X + dx) (dot.Y + dy)
            (alphaBlend P color (o1.RGBAAt (dot.X + dx) (dot.Y + dy)))
        else o1) o)
    inner
    (by
      rintro j k x y ⟨-, -, -, hj, -⟩ ⟨-, -, -, hk, -⟩
      omega)
    dotSize.toNat
  refine regionUpdate_congr _ _ _ _ outer ?_
  intro o x y _
  unfold covers
  constructor
  · rintro ⟨dx, hdx, dy, hdy, ⟨hxw, hyh⟩, hx, hy⟩
    refine ⟨⟨?_, ?_, ?_, ?_⟩, ?_, ?_⟩ <;> omega
  · rintro ⟨⟨h1, h2, h3, h4⟩, hxw, hyh⟩
    refine ⟨(x - dot.X).toNat, ?_, (y - dot.Y).toNat, ?_, ⟨?_, ?_⟩, ?_, ?_⟩ <;> omega

/-- The darkening loops blend the overlay into every pixel of the image. -/
theorem darkenLoop_regionUpdate (P : Platform) (w h : ℤ) (overlay : RGBA) :
    RegionUpdate (alphaBlend P overlay) (fun x y => 0 ≤ x ∧ x < w ∧ 0 ≤ y ∧ y < h)
      (darkenLoop P w h overlay) := by
  have inner : ∀ y : ℕ, RegionUpdate (alphaBlend P overlay)
      (fun x1 y1 => ∃ x, x < w.toNat ∧ (True ∧ x1 = (x : ℤ) ∧ y1 = (y : ℤ)))
      (fun o => (List.range w.toNat).foldl (fun o1 (x : ℕ) =>
        o1.SetRGBA x y (alphaBlend P overlay (o1.RGBAAt x y))) o) := by
    intro y
    apply regionUpdate_foldl (alphaBlend P overlay)
      (fun x x1 y1 => True ∧ x1 = (x : ℤ) ∧ y1 = (y : ℤ))
      (fun x o1 => o1.SetRGBA x y (alphaBlend P overlay (o1.RGBAAt x y)))
    · intro x
      have := regionUpdate_point (alphaBlend P overlay) True (x : ℤ) (y : ℤ)
      simpa using this
    · rintro j k x1 y1 ⟨-, hj, -⟩ ⟨-, hk, -⟩
      omega
  have outer := regionUpdate_foldl (alphaBlend P overlay)
    (fun y x1 y1 => ∃ x, x < w.toNat ∧ (True ∧ x1 = (x : ℤ) ∧ y1 = (y : ℤ)))
    (fun y o => (List.range w.toNat).foldl (fun o1 (x : ℕ) =>
        o1.SetRGBA x y (alphaBlend P overlay (o1.RGBAAt x y))) o)
    inner
    (by
      rintro j k x1 y1 ⟨-, -, -, -, hj⟩ ⟨-, -, -, -, hk⟩
      omega)
    h.toNat
  refine regionUpdate_congr _ _ _ _ outer ?_
  intro o x1 y1 _
  constructor
  · rintro ⟨y, hy, x, hx, -, hx1, hy1⟩
    omega
  · rintro ⟨h1, h2, h3, h4⟩
    exact ⟨y1.toNat, by omega, x1.toNat, by omega, trivial, by omega, by omega⟩

/-! ## drawShimmerFrame: the frame -/

theorem drawDots_spec (P : Platform) (w h dotSize : ℤ) (colorOf : shimmerDot → RGBA)
    (dots : List shimmerDot) :
    ∀ o : Image, o.w = w → o.h = h →
      (dots.foldl (fun o1 dot => drawDot P w h dotSize (colorOf dot) dot o1) o).w = w ∧
      (dots.foldl (fun o1 dot => drawDot P w h dotSize (colorOf dot) dot o1) o).h = h ∧
      (∀ x y, o.inBounds x y →
        (dots.foldl (fun o1 dot => drawDot P w h dotSize (colorOf dot) dot o1) o).pix x y =
          (dots.filter (fun d => decide (covers dotSize d x y))).foldl
            (fun acc d => alphaBlend P (colorOf d) acc) (o.pix x y)) ∧
      (∀ x y, ¬ o.inBounds x y →
        (dots.foldl (fun o1 dot => drawDot P w h dotSize (colorOf dot) dot o1) o).pix x y =
          o.pix x y) := by
  induction dots with
  | nil =>
    intro o hw hh
    exact ⟨hw, hh, fun _ _ _ => rfl, fun _ _ _ => rfl⟩
  | cons d ds ih =>
    intro o hw hh
    obtain ⟨hw1, hh1, hp1⟩ := drawDot_regionUpdate P w h dotSize (colorOf d) d o
    obtain ⟨hw2, hh2, hin2, hout2⟩ :=
      ih (drawDot P w h dotSize (colorOf d) d o) (hw1.trans hw) (hh1.trans hh)
    simp only [List.foldl_cons]
    refine ⟨hw2, hh2, ?_, ?_⟩
    · intro x y hb
      have hb1 : (drawDot P w h dotSize (colorOf d) d o).inBounds x y :=
        (inBounds_congr _ o hw1 hh1 x y).mpr hb
      rw [hin2 x y hb1]
      have hxw : x < w := by rw [← hw]; exact hb.2.1
      have hyh : y < h := by rw [← hh]; exact hb.2.2.2
      by_cases hc : covers dotSize d x y
      · rw [(hp1 x y).1 ⟨⟨hc, hxw, hyh⟩, hb⟩]
        simp only [List.filter_cons, hc, decide_True, if_true, List.foldl_cons]
      · rw [(hp1 x y).2 (fun hq => hc hq.1.1)]
        simp only [List.filter_cons, hc, decide_False, Bool.false_eq_true, if_false]
    · intro x y hb
      have hb1 : ¬ (drawDot P w h dotSize (colorOf d) d o).inBounds x y :=
        fun hq => hb ((inBounds_congr _ o hw1 hh1 x y).mp hq)
      rw [hout2 x y hb1]
      exact (hp1 x y).2 (fun hq => hb hq.2)

/-- The pixels of the frame in the terms of the code: the overlay colour and the dot
colours as `drawShimmerFrame` computes them. -/
theorem drawShimmerFrame_pixels (P : Platform) (base : Image) (dots : List shimmerDot)
    (frame totalFrames dotSize : ℤ) (shimmerSpeed darkenPercent : ℚ) :
    (drawShimmerFrame P base dots frame totalFrames dotSize shimmerSpeed darkenPercent).w
        = base.w ∧
      (drawShimmerFrame P base dots frame totalFrames dotSize shimmerSpeed darkenPercent).h
        = base.h ∧
      (∀ x y, base.inBounds x y →
        (drawShimmerFrame P base dots frame totalFrames dotSize shimmerSpeed darkenPercent).pix
            x y
          = (dots.filter (fun d => decide (covers dotSize d x y))).foldl
              (fun acc d => alphaBlend P (dotColor P frame totalFrames shimmerSpeed d) acc)
              (alphaBlend P (overlayColor P darkenPercent) (base.pix x y))) ∧
      (∀ x y, base.inBounds x y → (∀ d ∈ dots, ¬ covers dotSize d x y) →
        (drawShimmerFrame P base dots frame totalFrames dotSize shimmerSpeed darkenPercent).pix
            x y
          = alphaBlend P (overlayColor P darkenPercent) (base.pix x y)) ∧
      (∀ x y, ¬ base.inBounds x y →
        (drawShimmerFrame P base dots frame totalFrames dotSize shimmerSpeed darkenPercent).pix
            x y
          = RGBA.zero) := by
  -- the copy of the base
  have hcopy_in : ∀ x y, base.inBounds x y →
      ((Image.NewRGBA base.w base.h).drawSrc base).pix x y = base.pix x y := by
    intro x y hb
    have hn : (Image.NewRGBA base.w base.h).inBounds x y := hb
    show (if (Image.NewRGBA base.w base.h).inBounds x y then base.pix x y
      else (Image.NewRGBA base.w base.h).pix x y) = base.pix x y
    rw [if_pos hn]
  have hcopy_out : ∀ x y, ¬ base.inBounds x y →
      ((Image.NewRGBA base.w base.h).drawSrc base).pix x y = RGBA.zero := by
    intro x y hb
    have hn : ¬ (Image.NewRGBA base.w base.h).inBounds x y := hb
    show (if (Image.NewRGBA base.w base.h).inBounds x y then base.pix x y
      else (Image.NewRGBA base.w base.h).pix x y) = RGBA.zero
    rw [if_neg hn]
    rfl
  have hcopy_b : ∀ x y, ((Image.NewRGBA base.w base.h).drawSrc base).inBounds x y ↔
      base.inBounds x y := fun x y => Iff.rfl
  -- the darkening
  obtain ⟨hw1, hh1, hp1⟩ := darkenLoop_regionUpdate P base.w base.h
    (overlayColor P darkenPercent) ((Image.NewRGBA base.w base.h).drawSrc base)
  have hw1b : (darkenLoop P base.w base.h (overlayColor P darkenPercent)
      ((Image.NewRGBA base.w base.h).drawSrc base)).w = base.w := hw1
  have hh1b : (darkenLoop P base.w base.h (overlayColor P darkenPercent)
      ((Image.NewRGBA base.w base.h).drawSrc base)).h = base.h := hh1
  have hdark_b : ∀ x y, (darkenLoop P base.w base.h (overlayColor P darkenPercent)
      ((Image.NewRGBA base.w base.h).drawSrc base)).inBounds x y ↔ base.inBounds x y := by
    intro x y
    unfold Image.inBounds
    rw [hw1b, hh1b]
  have hdark_in : ∀ x y, base.inBounds x y →
      (darkenLoop P base.w base.h (overlayColor P darkenPercent)
        ((Image.NewRGBA base.w base.h).drawSrc base)).pix x y
        = alphaBlend P (overlayColor P darkenPercent) (base.pix x y) := by
    intro x y hb
    rw [(hp1 x y).1 ⟨hb, (hcopy_b x y).mpr hb⟩, hcopy_in x y hb]
  have hdark_out : ∀ x y, ¬ base.inBounds x y →
      (darkenLoop P base.w base.h (overlayColor P darkenPercent)
        ((Image.NewRGBA base.w base.h).drawSrc base)).pix x y = RGBA.zero := by
    intro x y hb
    rw [(hp1 x y).2 (fun hh => hb hh.1), hcopy_out x y hb]
  -- the dots
  obtain ⟨hw2, hh2, hin2, hout2⟩ := drawDots_spec P base.w base.h dotSize
    (dotColor P frame totalFrames shimmerSpeed) dots _ hw1b hh1b
  have hmain : ∀ x y, base.inBounds x y →
      (drawShimmerFrame P base dots frame totalFrames dotSize shimmerSpeed darkenPercent).pix
          x y
        = (dots.filter (fun d => decide (covers dotSize d x y))).foldl
            (fun acc d => alphaBlend P (dotColor P frame totalFrames shimmerSpeed d) acc)
            (alphaBlend P (overlayColor P darkenPercent) (base.pix x y)) := by
    intro x y hb
    unfold drawShimmerFrame
    rw [hin2 x y ((hdark_b x y).mpr hb), hdark_in x y hb]
  refine ⟨hw2, hh2, hmain, ?_, ?_⟩
  · intro x y hb hnone
    rw [hmain x y hb]
    have : dots.filter (fun d => decide (covers dotSize d x y)) = [] := by
      rw [List.filter_eq_nil_iff]
      intro d hd
      simpa using hnone d hd
    rw [this]
    rfl
  · intro x y hb
    unfold drawShimmerFrame
    rw [hout2 x y (fun hh => hb ((hdark_b x y).mp hh)), hdark_out x y hb]

theorem dotColor_eq (P : Platform) (frame totalFrames : ℤ) (shimmerSpeed : ℚ)
    (d : shimmerDot) :
    dotColor P frame totalFrames shimmerSpeed d =
      ⟨d.Gray, d.Gray, d.Gray,
        F64.toUInt8 P
          (F64.mul (shimmerBrightness P frame totalFrames shimmerSpeed d.Phase) (some 255))⟩ :=
  rfl

/-- C8 (as stated, refuted): at `darkenPercent = 1.3` the integer part of
`255 * darkenPercent` is 331, the overlay alpha is its low byte 75, and the pixel of a
1×1 frame without dots is the base pixel blended with `(0, 0, 0, 75)`; at the float64
nearest to `1/3` the overlay alpha is 85, the integer part of the float64 product,
while the integer part of the exact product is 84. -/
theorem drawShimmerFrame_overlay_wraps :
    truncQ (round64 (255 * darken13)) = 331 ∧
      overlayColor examplePlatform darken13 = ⟨0, 0, 0, 75⟩ ∧
      (drawShimmerFrame examplePlatform ⟨1, 1, fun _ _ => ⟨10, 20, 30, 255⟩⟩ [] 0 1 6 9
          darken13).pix 0 0
        = alphaBlend examplePlatform ⟨0, 0, 0, 75⟩ ⟨10, 20, 30, 255⟩ ∧
      overlayColor examplePlatform darkenThird = ⟨0, 0, 0, 85⟩ ∧
      truncQ ((255 : ℚ) * darkenThird) = 84 := by
  obtain ⟨-, h1, h2⟩ := overlay_example_wrap
  obtain ⟨h3, h4⟩ := overlay_example_rounding
  refine ⟨h1, h2, ?_, h3, h4⟩
  obtain ⟨-, -, -, hnone, -⟩ := drawShimmerFrame_pixels examplePlatform
    ⟨1, 1, fun _ _ => ⟨10, 20, 30, 255⟩⟩ [] 0 1 6 9 darken13
  have hb : (⟨1, 1, fun _ _ => ⟨10, 20, 30, 255⟩⟩ : Image).inBounds 0 0 := by
    unfold Image.inBounds
    norm_num
  rw [hnone 0 0 hb (fun d hd => absurd hd (List.not_mem_nil d)), h2]

/-- C8 (amended): when the integer part of the float64 product `255 * darkenPercent`
is within `0..255` (as for every fraction of `[0, 1]`), the frame returned by
`drawShimmerFrame` has the width and the height of the base; its pixel at each
`(x, y)` within the bounds is the base pixel blended with the black overlay
`(0, 0, 0, A)`, `A` being that integer part, and then, in the order of the dot list,
with the colour `(Gray, Gray, Gray, a)` of every dot whose square
`[X, X+dotSize) × [Y, Y+dotSize)` contains `(x, y)`, `a` being the 8-bit conversion
of the brightness times 255; a pixel covered by no dot is the darkened base pixel;
no pixel outside the bounds is written. -/
theorem drawShimmerFrame_spec (P : Platform) (base : Image) (dots : List shimmerDot)
    (frame totalFrames dotSize : ℤ) (shimmerSpeed darkenPercent : ℚ)
    (hlo : 0 ≤ truncQ (round64 (255 * darkenPercent)))
    (hhi : truncQ (round64 (255 * darkenPercent)) ≤ 255) :
    ∃ A : Fin 256, ((A : ℕ) : ℤ) = truncQ (round64 (255 * darkenPercent)) ∧
      (drawShimmerFrame P base dots frame totalFrames dotSize shimmerSpeed darkenPercent).w
        = base.w ∧
      (drawShimmerFrame P base dots frame totalFrames dotSize shimmerSpeed darkenPercent).h
        = base.h ∧
      (∀ x y, base.inBounds x y →
        (drawShimmerFrame P base dots frame totalFrames dotSize shimmerSpeed darkenPercent).pix
            x y
          = framePixelSpec P base dots frame totalFrames dotSize shimmerSpeed A x y) ∧
      (∀ x y, base.inBounds x y → (∀ d ∈ dots, ¬ covers dotSize d x y) →
        (drawShimmerFrame P base dots frame totalFrames dotSize shimmerSpeed darkenPercent).pix
            x y
          = alphaBlend P ⟨0, 0, 0, A⟩ (base.pix x y)) ∧
      (∀ x y, ¬ base.inBounds x y →
        (drawShimmerFrame P base dots frame totalFrames dotSize shimmerSpeed darkenPercent).pix
            x y
          = RGBA.zero) := by
  obtain ⟨A, hA, hov⟩ := overlayColor_spec P darkenPercent hlo hhi
  obtain ⟨hw, hh, hin, hnone, hout⟩ := drawShimmerFrame_pixels P base dots frame totalFrames
    dotSize shimmerSpeed darkenPercent
  refine ⟨A, hA, hw, hh, ?_, ?_, hout⟩
  · intro x y hb
    rw [hin x y hb, hov]
    rfl
  · intro x y hb hno
    rw [hnone x y hb hno, hov]

theorem drawShimmerFrame_spec_witness :
    ∃ A : Fin 256, ((A : ℕ) : ℤ) = truncQ (round64 (255 * darken03)) ∧
      (drawShimmerFrame examplePlatform ⟨2, 2, fun _ _ => ⟨10, 20, 30, 255⟩⟩
          [⟨1, 1, some 0, 230⟩] 1 150 6 9 darken03).w = 2 ∧
      (drawShimmerFrame examplePlatform ⟨2, 2, fun _ _ => ⟨10, 20, 30, 255⟩⟩
          [⟨1, 1, some 0, 230⟩] 1 150 6 9 darken03).h = 2 ∧
      (∀ x y, (⟨2, 2, fun _ _ => ⟨10, 20, 30, 255⟩⟩ : Image).inBounds x y →
        (drawShimmerFrame examplePlatform ⟨2, 2, fun _ _ => ⟨10, 20, 30, 255⟩⟩
            [⟨1, 1, some 0, 230⟩] 1 150 6 9 darken03).pix x y
          = framePixelSpec examplePlatform ⟨2, 2, fun _ _ => ⟨10, 20, 30, 255⟩⟩
              [⟨1, 1, some 0, 230⟩] 1 150 6 9 A x y) ∧
      (∀ x y, (⟨2, 2, fun _ _ => ⟨10, 20, 30, 255⟩⟩ : Image).inBounds x y →
        (∀ d ∈ [(⟨1, 1, some 0, 230⟩ : shimmerDot)], ¬ covers 6 d x y) →
        (drawShimmerFrame examplePlatform ⟨2, 2, fun _ _ => ⟨10, 20, 30, 255⟩⟩
            [⟨1, 1, some 0, 230⟩] 1 150 6 9 darken03).pix x y
          = alphaBlend examplePlatform ⟨0, 0, 0, A⟩ ⟨10, 20, 30, 255⟩) ∧
      (∀ x y, ¬ (⟨2, 2, fun _ _ => ⟨10, 20, 30, 255⟩⟩ : Image).inBounds x y →
        (drawShimmerFrame examplePlatform ⟨2, 2, fun _ _ => ⟨10, 20, 30, 255⟩⟩
            [⟨1, 1, some 0, 230⟩] 1 150 6 9 darken03).pix x y
          = RGBA.zero) :=
  drawShimmerFrame_spec examplePlatform ⟨2, 2, fun _ _ => ⟨10, 20, 30, 255⟩⟩
    [⟨1, 1, some 0, 230⟩] 1 150 6 9 darken03
    (overlay_trunc_bounds darken03 (by norm_num [darken03]) (by norm_num [darken03])).1
    (overlay_trunc_bounds darken03 (by norm_num [darken03]) (by norm_num [darken03])).2

/-! ## The frame file names -/

theorem digitChar_inj : ∀ a : ℕ, a < 10 → ∀ b : ℕ, b < 10 →
    Nat.digitChar a = Nat.digitChar b → a = b := by
  decide

theorem map_digitChar_inj : ∀ l1 l2 : List ℕ, (∀ a ∈ l1, a < 10) → (∀ a ∈ l2, a < 10) →
    l1.map Nat.digitChar = l2.map Nat.digitChar → l1 = l2 := by
  intro l1
  induction l1 with
  | nil =>
    intro l2 _ _ h
    cases l2 with
    | nil => rfl
    | cons b l2 => simp at h
  | cons a l1 ih =>
    intro l2 h1 h2 h
    cases l2 with
    | nil => simp at h
    | cons b l2 =>
      simp only [List.map_cons, List.cons.injEq] at h
      have hab := digitChar_inj a (h1 a (List.mem_cons_self a l1)) b
        (h2 b (List.mem_cons_self b l2)) h.1
      have hl := ih l2 (fun c hc => h1 c (List.mem_cons_of_mem a hc))
        (fun c hc => h2 c (List.mem_cons_of_mem b hc)) h.2
      rw [hab, hl]

theorem pad4_lt (i : ℕ) : ∀ a ∈ pad4 i, a < 10 := by
  intro a ha
  unfold pad4 at ha
  rcases List.mem_append.mp ha with h | h
  · rw [List.eq_of_mem_replicate h]; norm_num
  · exact Nat.digits_lt_base (by norm_num) (List.mem_reverse.mp h)

theorem ofDigits_pad4 (i : ℕ) : Nat.ofDigits 10 (pad4 i).reverse = i := by
  unfold pad4
  rw [List.reverse_append, List.reverse_reverse, Nat.ofDigits_append, Nat.ofDigits_digits,
    List.reverse_replicate]
  have hz : ∀ k : ℕ, Nat.ofDigits 10 (List.replicate k 0) = 0 := by
    intro k
    induction k with
    | zero => rfl
    | succ k ih => rw [List.replicate_succ, Nat.ofDigits_cons, ih]
  rw [hz]
  simp

theorem pad4_inj (i j : ℕ) (h : pad4 i = pad4 j) : i = j := by
  rw [← ofDigits_pad4 i, ← ofDigits_pad4 j, h]

/-- Distinct frame indices have distinct file names. -/
theorem frameName_inj (i j : ℕ) (h : frameName i = frameName j) : i = j := by
  unfold frameName at h
  have hd := congrArg String.data h
  simp only [String.data_append] at hd
  have h1 := List.append_cancel_right hd
  have h2 := List.append_cancel_left h1
  exact pad4_inj i j (map_digitChar_inj _ _ (pad4_lt i) (pad4_lt j) h2)

theorem frameName_example :
    (List.range 5).map frameName =
      ["frame_0000.png", "frame_0001.png", "frame_0002.png", "frame_0003.png",
        "frame_0004.png"] := by
  simp [List.range_succ, frameName, pad4]
  decide

/-! ## The dot count -/

theorem truncQ_zero : truncQ 0 = 0 := by
  simp [truncQ]

theorem truncQ_lt_one_iff (v : ℚ) : truncQ v < 1 ↔ ⌊v⌋ < 1 := by
  unfold truncQ
  split_ifs with h
  · rfl
  · have hv : v < 0 := not_le.mp h
    have h1 : ⌈v⌉ ≤ 0 := Int.ceil_le.mpr (by push_cast; exact hv.le)
    have h2 : ⌊v⌋ < 0 := Int.floor_lt.mpr (by push_cast; exact hv)
    constructor <;> intro _ <;> omega

theorem truncQ_eq_floor (v : ℚ) (h : 1 ≤ truncQ v) : truncQ v = ⌊v⌋ := by
  unfold truncQ at h ⊢
  split_ifs at h ⊢ with h0
  · rfl
  · have hv : v < 0 := not_le.mp h0
    have h1 : ⌈v⌉ ≤ 0 := Int.ceil_le.mpr (by push_cast; exact hv.le)
    omega

theorem dotCount_eq_trunc (P : Platform) (img : Image) (d v : ℚ)
    (hv : F64.mul (F64.ofInt (img.w * img.h)) (some d) = some v)
    (hlo : -2 ^ 63 ≤ truncQ v) (hhi : truncQ v < 2 ^ 63) :
    dotCount P img d = truncQ v := by
  unfold dotCount
  rw [hv]
  unfold F64.toInt
  simp only [hlo, hhi, and_self, if_true]

theorem dotCount_of_zero_area (P : Platform) (img : Image) (d : ℚ)
    (h : img.w * img.h = 0) : dotCount P img d = 0 := by
  have hv : F64.mul (F64.ofInt (img.w * img.h)) (some d) = some 0 := by
    rw [h]
    unfold F64.ofInt
    simp only [Int.cast_zero, ofRat_zero, F64.mul, zero_mul]
  rw [dotCount_eq_trunc P img d 0 hv (by rw [truncQ_zero]; norm_num)
    (by rw [truncQ_zero]; norm_num), truncQ_zero]

theorem ofInt_natCast (n : ℕ) (hn : n < 2 ^ 53) : F64.ofInt (n : ℤ) = some (n : ℚ) := by
  unfold F64.ofInt
  have h := ofRat_natCast n hn
  simpa using h

/-- The scenario of the specification: 102 × 100 pixels at density 0.004. -/
theorem dotCount_product_example :
    F64.mul (F64.ofInt (102 * 100)) (some density004)
      = some (5742089524897383 * 2 ^ (-47 : ℤ)) := by
  have h1 : F64.ofInt (102 * 100) = some 10200 := by
    have h := ofInt_natCast 10200 (by norm_num)
    norm_num at h ⊢
    exact h
  rw [h1]
  show F64.ofRat (10200 * density004) = some (5742089524897383 * 2 ^ (-47 : ℤ))
  have h := ofRat_eq_of (10200 * density004) 5 5742089524897383 (by norm_num)
    (by norm_num [density004]) (by norm_num [density004]) (by norm_num [density004, abs_lt])
    (by norm_num [abs_lt])
  rw [h]
  norm_num

theorem truncQ_example : truncQ (5742089524897383 * 2 ^ (-47 : ℤ)) = 40 := by
  unfold truncQ
  rw [if_pos (by norm_num)]
  exact Int.floor_eq_iff.mpr ⟨by norm_num, by norm_num⟩

theorem dotCount_example (P : Platform) (pix : ℤ → ℤ → RGBA) :
    dotCount P ⟨102, 100, pix⟩ density004 = 40 := by
  rw [dotCount_eq_trunc P ⟨102, 100, pix⟩ density004 _ dotCount_product_example
    (by rw [truncQ_example]; norm_num) (by rw [truncQ_example]; norm_num), truncQ_example]

theorem dims_pos_of_dotCount (P : Platform) (img : Image) (d : ℚ)
    (hw : 0 ≤ img.w) (hh : 0 ≤ img.h) (hcheck : 1 ≤ dotCount P img d) :
    0 < img.w ∧ 0 < img.h := by
  by_contra hcon
  have hz : img.w * img.h = 0 := by
    rcases lt_or_eq_of_le hw with h1 | h1
    · rcases lt_or_eq_of_le hh with h2 | h2
      · exact absurd ⟨h1, h2⟩ hcon
      · rw [← h2]; ring
    · rw [← h1]; ring
  rw [dotCount_of_zero_area P img d hz] at hcheck
  omega

/-- C10: when the dot-count check passes on a base image of width `≥ 0` and height
`≥ 0`, the width and the height are both positive, so the three arguments of
`rand.Intn` in `generateShimmerDots` (the width, the height and `250-220+1`) are
positive and `generateShimmerDots` does not panic. -/
theorem dotCount_check_positive (P : Platform) (blurred : Image) (dotDensity : ℚ) (r : Rng)
    (hw : 0 ≤ blurred.w) (hh : 0 ≤ blurred.h)
    (hcheck : ¬ dotCount P blurred dotDensity < 1) :
    0 < blurred.w ∧ 0 < blurred.h ∧ (0 : ℤ) < 250 - 220 + 1 ∧
      generateShimmerDots blurred (dotCount P blurred dotDensity) 220 250 r ≠ none := by
  have hc : 1 ≤ dotCount P blurred dotDensity := not_lt.mp hcheck
  obtain ⟨h1, h2⟩ := dims_pos_of_dotCount P blurred dotDensity hw hh hc
  refine ⟨h1, h2, by norm_num, ?_⟩
  obtain ⟨dots, r1, hd, -⟩ := generateDotsLoop_spec blurred 220 250 h1 h2 (by norm_num)
    (by norm_num) (by norm_num) (dotCount P blurred dotDensity).toNat r
  unfold generateShimmerDots
  rw [if_neg (by omega), hd]
  exact Option.some_ne_none _

theorem dotCount_check_positive_witness :
    (0 : ℤ) < 102 ∧ (0 : ℤ) < 100 ∧ (0 : ℤ) < 250 - 220 + 1 ∧
      generateShimmerDots ⟨102, 100, fun _ _ => RGBA.zero⟩
        (dotCount examplePlatform ⟨102, 100, fun _ _ => RGBA.zero⟩ density004) 220 250
        ⟨fun n => 7 * n + 3, 0⟩ ≠ none :=
  dotCount_check_positive examplePlatform ⟨102, 100, fun _ _ => RGBA.zero⟩ density004
    ⟨fun n => 7 * n + 3, 0⟩ (by decide) (by decide)
    (by rw [dotCount_example]; decide)

theorem dotCount_congr (P : Platform) (img1 img2 : Image) (d : ℚ)
    (hw : img1.w = img2.w) (hh : img1.h = img2.h) :
    dotCount P img1 d = dotCount P img2 d := by
  unfold dotCount
  rw [hw, hh]

/-! ## GenerateSpoilerFrames -/

theorem ensureEvenSize_nonneg (img : Image) (hw : 0 ≤ img.w) (hh : 0 ≤ img.h) :
    0 ≤ (ensureEvenSize img).w ∧ 0 ≤ (ensureEvenSize img).h := by
  have tw : img.w.tmod 2 = img.w % 2 := Int.tmod_eq_emod hw (by norm_num)
  have th : img.h.tmod 2 = img.h % 2 := Int.tmod_eq_emod hh (by norm_num)
  unfold ensureEvenSize
  simp only [tw, th]
  split_ifs with he
  · exact ⟨hw, hh⟩
  · by_cases h1 : img.w + img.w % 2 ≤ 0 ∨ img.h + img.h % 2 ≤ 0
    · simp [imagingPasteCenter, imagingNew, h1]
    · simp only [imagingPasteCenter, imagingNew, h1, if_false]
      constructor <;> omega

theorem ensureEvenSize_example (pix : ℤ → ℤ → RGBA) :
    (ensureEvenSize ⟨101, 100, pix⟩).w = 102 ∧ (ensureEvenSize ⟨101, 100, pix⟩).h = 100 := by
  obtain ⟨h1, h2⟩ := ensureEvenSize_dims ⟨101, 100, pix⟩ (by show (0 : ℤ) ≤ 101; norm_num)
    (by show (0 : ℤ) ≤ 100; norm_num)
    (Or.inl ⟨by show (0 : ℤ) < 101; norm_num, by show (0 : ℤ) < 100; norm_num⟩)
  exact ⟨h1, h2⟩

/-- The frame loop ends with `nil` or with one of its two errors. -/
theorem frameLoop_outcome (P : Platform) (E : Env) (blurred : Image) (dots : List shimmerDot)
    (totalFrames dotSize : ℤ) (shimmerSpeed darkenPercent : ℚ) (n : ℕ) :
    ∀ i : ℕ,
      (frameLoop P E blurred dots totalFrames dotSize shimmerSpeed darkenPercent n i).1
        ≠ Outcome.failure "dot count must be at least 1" := by
  induction n with
  | zero =>
    intro i
    simp [frameLoop]
  | succ n ih =>
    intro i
    unfold frameLoop
    by_cases hc : E.createOk i = true
    · by_cases he : E.encodeOk i = true
      · rw [if_pos hc, if_pos he]
        exact ih (i + 1)
      · rw [if_pos hc, if_neg he]
        show Outcome.failure "failed to encode frame"
          ≠ Outcome.failure "dot count must be at least 1"
        decide
    · rw [if_neg hc]
      show Outcome.failure "failed to create frame"
        ≠ Outcome.failure "dot count must be at least 1"
      decide

/-- When every `os.Create` and every `png.Encode` succeeds, the frame loop writes the
frames `i, i+1, ..., i+n-1` in this order and ends with `nil`. -/
theorem frameLoop_success (P : Platform) (E : Env) (blurred : Image) (dots : List shimmerDot)
    (totalFrames dotSize : ℤ) (shimmerSpeed darkenPercent : ℚ) (n : ℕ) :
    ∀ i : ℕ, (∀ j, i ≤ j → j < i + n → E.createOk j = true ∧ E.encodeOk j = true) →
      (frameLoop P E blurred dots totalFrames dotSize shimmerSpeed darkenPercent n i).1
        = Outcome.success ∧
      writtenFiles
          (frameLoop P E blurred dots totalFrames dotSize shimmerSpeed darkenPercent n i).2
        = (List.range' i n).map (fun j : ℕ => (frameName j,
            drawShimmerFrame P blurred dots j totalFrames dotSize shimmerSpeed
              darkenPercent)) := by
  induction n with
  | zero =>
    intro i _
    exact ⟨rfl, rfl⟩
  | succ n ih =>
    intro i hok
    obtain ⟨hc, he⟩ := hok i (le_refl i) (by omega)
    obtain ⟨h1, h2⟩ := ih (i + 1) (fun j hj1 hj2 => hok j (by omega) (by omega))
    unfold frameLoop
    rw [if_pos hc, if_pos he]
    refine ⟨h1, ?_⟩
    simp only [writtenFiles, h2, List.range'_succ, List.map_cons]

theorem GenerateSpoilerFrames_unfold (P : Platform) (E : Env) (totalFrames : ℤ)
    (blurSigma dotDensity : ℚ) (dotSize : ℤ) (shimmerSpeed darkenPercent : ℚ) (src : Image)
    (hopen : E.openImage = some src) (hmk : E.mkdirOk = true) :
    GenerateSpoilerFrames P E totalFrames blurSigma dotDensity dotSize shimmerSpeed
        darkenPercent =
      if dotCount P (imagingBlur E (ensureEvenSize src) blurSigma) dotDensity < 1 then
        (Outcome.failure "dot count must be at least 1", [])
      else
        match generateShimmerDots (imagingBlur E (ensureEvenSize src) blurSigma)
            (dotCount P (imagingBlur E (ensureEvenSize src) blurSigma) dotDensity) 220 250
            E.rng with
        | none => (Outcome.panicked, [])
        | some (dots, _) =>
          frameLoop P E (imagingBlur E (ensureEvenSize src) blurSigma) dots totalFrames
            dotSize shimmerSpeed darkenPercent totalFrames.toNat 0 := by
  unfold GenerateSpoilerFrames
  simp only [hopen, hmk, if_true]
  try rfl

theorem round64_neg (x : ℚ) (hx : 0 < x) : round64 (-x) = -round64 x := by
  unfold round64
  rw [if_pos (by linarith), if_neg (by linarith), neg_neg]

theorem ofRat_pow72 : F64.ofRat ((4 : ℚ) * 2 ^ 70) = some (2 ^ 72) := by
  have h := ofRat_eq_of ((4 : ℚ) * 2 ^ 70) 72 (2 ^ 52) (by norm_num) (by norm_num)
    (by norm_num) (by norm_num [abs_lt]) (by norm_num [abs_lt])
  rw [h]
  norm_num

theorem ofInt_small (n : ℕ) (hn : n < 2 ^ 53) (m : ℤ) (hm : m = (n : ℤ)) :
    F64.ofInt m = some (n : ℚ) := by
  rw [hm]
  exact ofInt_natCast n hn

/-- A 2×2 image at density `2^70` on the 64-bit x86 target: the product `2^72` does
not fit an `int` and the conversion gives `-2^63`. -/
theorem dotCount_overflow_example (pix : ℤ → ℤ → RGBA) :
    F64.mul (F64.ofInt (2 * 2)) (some ((2 : ℚ) ^ 70)) = some (2 ^ 72) ∧
      dotCount examplePlatform ⟨2, 2, pix⟩ (2 ^ 70) = -2 ^ 63 := by
  have h4 : F64.ofInt (2 * 2) = some 4 := by
    have h := ofInt_small 4 (by norm_num) (2 * 2) (by norm_num)
    norm_num at h ⊢
    exact h
  have hV : F64.mul (F64.ofInt (2 * 2)) (some ((2 : ℚ) ^ 70)) = some (2 ^ 72) := by
    rw [h4]
    exact ofRat_pow72
  refine ⟨hV, ?_⟩
  have ht : truncQ ((2 : ℚ) ^ 72) = 2 ^ 72 :=
    truncQ_of_floor _ (2 ^ 72) (by norm_num) (by norm_num) (by norm_num)
  unfold dotCount
  show F64.toInt examplePlatform (F64.mul (F64.ofInt (2 * 2)) (some ((2 : ℚ) ^ 70))) = -2 ^ 63
  rw [hV]
  unfold F64.toInt
  simp only [ht]
  rw [if_neg (by norm_num)]
  rfl

/-- A 6×2 image at the float64 nearest to `1/12`: the exact product is below 1, the
float64 product is 1. -/
theorem dotCount_rounding_example (pix : ℤ → ℤ → RGBA) :
    dotCount examplePlatform ⟨6, 2, pix⟩ density12 = 1 ∧
      ⌊((6 * 2 : ℤ) : ℚ) * density12⌋ = 0 := by
  have h12 : F64.ofInt (6 * 2) = some 12 := by
    have h := ofInt_small 12 (by norm_num) (6 * 2) (by norm_num)
    norm_num at h ⊢
    exact h
  have hV : F64.mul (F64.ofInt (6 * 2)) (some density12) = some 1 := by
    rw [h12]
    show F64.ofRat (12 * density12) = some 1
    have h := ofRat_eq_of_round (12 * density12) (-1) 9007199254740992 (by norm_num)
      (by norm_num [density12]) (by norm_num [density12])
      (roundHalfEven_eq_of_tie_up _ _ (by norm_num [density12]) (by norm_num))
      (by norm_num [abs_lt])
    rw [h]
    norm_num
  have ht : truncQ (1 : ℚ) = 1 :=
    truncQ_of_floor _ 1 (by norm_num) (by norm_num) (by norm_num)
  constructor
  · rw [dotCount_eq_trunc examplePlatform ⟨6, 2, pix⟩ density12 1 hV
      (by rw [ht]; norm_num) (by rw [ht]; norm_num), ht]
  · rw [Int.floor_eq_iff]
    constructor <;> norm_num [density12]

/-- A 2×2 image at density `-1/8`: the product is `-1/2`, its integer part toward zero
is 0 and its floor is `-1`. -/
theorem dotCount_negative_example (pix : ℤ → ℤ → RGBA) :
    dotCount examplePlatform ⟨2, 2, pix⟩ (-1 / 8) = 0 ∧
      F64.mul (F64.ofInt (2 * 2)) (some ((-1 : ℚ) / 8)) = some (-1 / 2) ∧
      ⌊((-1 : ℚ) / 2)⌋ = -1 := by
  have h4 : F64.ofInt (2 * 2) = some 4 := by
    have h := ofInt_small 4 (by norm_num) (2 * 2) (by norm_num)
    norm_num at h ⊢
    exact h
  have hhalf : round64 (1 / 2 : ℚ) = 1 / 2 := by
    have h := round64_eq_of_round (1 / 2 : ℚ) (-1) (2 ^ 52) (by norm_num) (by norm_num)
      (by norm_num) (roundHalfEven_eq_of_abs_lt _ _ (by norm_num [abs_lt]))
    rw [h]
    norm_num
  have hr : round64 (-1 / 2 : ℚ) = -1 / 2 := by
    have h := round64_neg (1 / 2) (by norm_num)
    rw [hhalf] at h
    have e : (-1 / 2 : ℚ) = -(1 / 2) := by norm_num
    rw [e, h]
  have hV : F64.mul (F64.ofInt (2 * 2)) (some ((-1 : ℚ) / 8)) = some (-1 / 2) := by
    rw [h4]
    show F64.ofRat (4 * (-1 / 8)) = some (-1 / 2)
    have e : (4 : ℚ) * (-1 / 8) = -1 / 2 := by norm_num
    rw [e]
    unfold F64.ofRat
    rw [hr, if_pos (by norm_num [abs_lt])]
  have ht : truncQ (-1 / 2 : ℚ) = 0 := by
    unfold truncQ
    rw [if_neg (by norm_num)]
    rw [Int.ceil_eq_iff]
    constructor <;> norm_num
  refine ⟨?_, hV, ?_⟩
  · rw [dotCount_eq_trunc examplePlatform ⟨2, 2, pix⟩ (-1 / 8) (-1 / 2) hV
      (by rw [ht]; norm_num) (by rw [ht]; norm_num), ht]
  · rw [Int.floor_eq_iff]
    constructor <;> norm_num

/-- C2 (as stated, refuted): for a 2×2 source at density `2^70` the product `2^72`
has a floor `≥ 1`, yet on the 64-bit x86 target `int(2^72)` is `-2^63` and the run
returns the dot-count error; for 6×2 pixels at the float64 nearest to `1/12` the
floor of the exact product is 0 while `dotCount` is 1, the float64 product being 1;
for 2×2 pixels at density `-1/8` the floor of the product is `-1` while `dotCount`
is 0, the conversion truncating toward zero. -/
theorem GenerateSpoilerFrames_dotCount_overflow :
    (GenerateSpoilerFrames examplePlatform smallEnv 5 45 (2 ^ 70) 6 9 darken03).1
        = Outcome.failure "dot count must be at least 1" ∧
      F64.mul (F64.ofInt (2 * 2)) (some ((2 : ℚ) ^ 70)) = some (2 ^ 72) ∧
      ¬ (⌊((2 : ℚ) ^ 72)⌋ < 1) ∧
      dotCount examplePlatform ⟨6, 2, fun _ _ => RGBA.zero⟩ density12 = 1 ∧
      ⌊((6 * 2 : ℤ) : ℚ) * density12⌋ = 0 ∧
      dotCount examplePlatform ⟨2, 2, fun _ _ => RGBA.zero⟩ (-1 / 8) = 0 ∧
      ⌊((-1 : ℚ) / 2)⌋ = -1 := by
  obtain ⟨hV, hdc⟩ := dotCount_overflow_example (fun _ _ => RGBA.zero)
  obtain ⟨hr1, hr2⟩ := dotCount_rounding_example (fun _ _ => RGBA.zero)
  obtain ⟨hn1, -, hn2⟩ := dotCount_negative_example (fun _ _ => RGBA.zero)
  have hfl : ⌊((2 : ℚ) ^ 72)⌋ = 2 ^ 72 := by
    rw [Int.floor_eq_iff]
    constructor <;> norm_num
  refine ⟨?_, hV, by rw [hfl]; norm_num, hr1, hr2, hn1, hn2⟩
  obtain ⟨hw, hh⟩ := ensureEvenSize_dims ⟨2, 2, fun _ _ => RGBA.zero⟩
    (by show (0 : ℤ) ≤ 2; norm_num) (by show (0 : ℤ) ≤ 2; norm_num)
    (Or.inl ⟨by show (0 : ℤ) < 2; norm_num, by show (0 : ℤ) < 2; norm_num⟩)
  have hcount : dotCount examplePlatform
      (imagingBlur smallEnv (ensureEvenSize ⟨2, 2, fun _ _ => RGBA.zero⟩) 45) (2 ^ 70)
      = -2 ^ 63 := by
    rw [dotCount_congr examplePlatform
      (imagingBlur smallEnv (ensureEvenSize ⟨2, 2, fun _ _ => RGBA.zero⟩) 45)
      ⟨2, 2, fun _ _ => RGBA.zero⟩ (2 ^ 70)
      (hw.trans (by show (2 : ℤ) + 2 % 2 = 2; norm_num))
      (hh.trans (by show (2 : ℤ) + 2 % 2 = 2; norm_num)), hdc]
  rw [GenerateSpoilerFrames_unfold examplePlatform smallEnv 5 45 (2 ^ 70) 6 9 darken03
    ⟨2, 2, fun _ _ => RGBA.zero⟩ rfl rfl, hcount, if_pos (by norm_num)]

/-- C2 (amended): when the source image loads, the output directory can be created,
and the float64 product `v = float64(width * height) * dotDensity` over the padded,
blurred image is finite with an integer part within the range of `int`,
`GenerateSpoilerFrames` computes `dotCount = trunc(v)`, the integer part toward zero,
which is `floor(v)` when `v ≥ 0`; it returns the error "dot count must be at least 1"
if and only if `dotCount < 1`, equivalently `floor(v) < 1`; with that error nothing
has been drawn or written. -/
theorem GenerateSpoilerFrames_dotCount (P : Platform) (E : Env) (totalFrames : ℤ)
    (blurSigma dotDensity : ℚ) (dotSize : ℤ) (shimmerSpeed darkenPercent : ℚ) (src : Image)
    (v : ℚ) (hopen : E.openImage = some src) (hmk : E.mkdirOk = true)
    (hv : F64.mul (F64.ofInt ((ensureEvenSize src).w * (ensureEvenSize src).h))
      (some dotDensity) = some v)
    (hlo : -2 ^ 63 ≤ truncQ v) (hhi : truncQ v < 2 ^ 63) :
    dotCount P (imagingBlur E (ensureEvenSize src) blurSigma) dotDensity = truncQ v ∧
      (0 ≤ v → dotCount P (imagingBlur E (ensureEvenSize src) blurSigma) dotDensity = ⌊v⌋) ∧
      ((GenerateSpoilerFrames P E totalFrames blurSigma dotDensity dotSize shimmerSpeed
          darkenPercent).1 = Outcome.failure "dot count must be at least 1" ↔
        dotCount P (imagingBlur E (ensureEvenSize src) blurSigma) dotDensity < 1) ∧
      ((GenerateSpoilerFrames P E totalFrames blurSigma dotDensity dotSize shimmerSpeed
          darkenPercent).1 = Outcome.failure "dot count must be at least 1" ↔ ⌊v⌋ < 1) ∧
      ((GenerateSpoilerFrames P E totalFrames blurSigma dotDensity dotSize shimmerSpeed
          darkenPercent).1 = Outcome.failure "dot count must be at least 1" →
        (GenerateSpoilerFrames P E totalFrames blurSigma dotDensity dotSize shimmerSpeed
          darkenPercent).2 = []) := by
  have hdc : dotCount P (imagingBlur E (ensureEvenSize src) blurSigma) dotDensity
      = truncQ v :=
    dotCount_eq_trunc P (imagingBlur E (ensureEvenSize src) blurSigma) dotDensity v hv hlo hhi
  have hrun := GenerateSpoilerFrames_unfold P E totalFrames blurSigma dotDensity dotSize
    shimmerSpeed darkenPercent src hopen hmk
  rw [hdc] at hrun
  have hiff : (GenerateSpoilerFrames P E totalFrames blurSigma dotDensity dotSize shimmerSpeed
      darkenPercent).1 = Outcome.failure "dot count must be at least 1" ↔ truncQ v < 1 := by
    constructor
    · intro herr
      by_contra hnot
      rw [hrun, if_neg hnot] at herr
      cases hgen : generateShimmerDots (imagingBlur E (ensureEvenSize src) blurSigma)
          (truncQ v) 220 250 E.rng with
      | none =>
        rw [hgen] at herr
        exact Outcome.noConfusion herr
      | some res =>
        rw [hgen] at herr
        exact frameLoop_outcome P E _ res.1 totalFrames dotSize shimmerSpeed darkenPercent _ 0
          herr
    · intro hlt
      rw [hrun, if_pos hlt]
  refine ⟨hdc, ?_, ?_, ?_, ?_⟩
  · intro h0
    rw [hdc]
    unfold truncQ
    rw [if_pos h0]
  · rw [hdc]; exact hiff
  · exact hiff.trans (truncQ_lt_one_iff v)
  · intro herr
    rw [hrun, if_pos (hiff.mp herr)]

theorem GenerateSpoilerFrames_dotCount_witness :
    dotCount examplePlatform
        (imagingBlur exampleEnv (ensureEvenSize ⟨101, 100, fun _ _ => RGBA.zero⟩) 45)
        density004 = 40 ∧
      (GenerateSpoilerFrames examplePlatform exampleEnv 5 45 density004 6 9 darken03).1
        ≠ Outcome.failure "dot count must be at least 1" := by
  have hex := ensureEvenSize_example (fun _ _ => RGBA.zero)
  obtain ⟨h1, -, h3, -, -⟩ :=
    GenerateSpoilerFrames_dotCount examplePlatform exampleEnv 5 45 density004 6 9 darken03
      ⟨101, 100, fun _ _ => RGBA.zero⟩ (5742089524897383 * 2 ^ (-47 : ℤ)) rfl rfl
      (by rw [hex.1, hex.2]; exact dotCount_product_example)
      (by rw [truncQ_example]; norm_num) (by rw [truncQ_example]; norm_num)
  rw [truncQ_example] at h1
  refine ⟨h1, fun herr => ?_⟩
  have := h3.mp herr
  rw [h1] at this
  norm_num at this

theorem drawShimmerFrame_dims (P : Platform) (base : Image) (dots : List shimmerDot)
    (frame totalFrames dotSize : ℤ) (shimmerSpeed darkenPercent : ℚ) :
    (drawShimmerFrame P base dots frame totalFrames dotSize shimmerSpeed darkenPercent).w
        = base.w ∧
      (drawShimmerFrame P base dots frame totalFrames dotSize shimmerSpeed darkenPercent).h
        = base.h := by
  obtain ⟨hw1, hh1, -⟩ := darkenLoop_regionUpdate P base.w base.h
    (overlayColor P darkenPercent) ((Image.NewRGBA base.w base.h).drawSrc base)
  obtain ⟨hw2, hh2, -, -⟩ := drawDots_spec P base.w base.h dotSize
    (dotColor P frame totalFrames shimmerSpeed) dots _ hw1 hh1
  exact ⟨hw2, hh2⟩

/-- C9: when the source image loads, the output directory can be created, the
dot-count check passes and every `os.Create` and `png.Encode` succeeds,
`GenerateSpoilerFrames` returns `nil` after writing exactly `totalFrames` frame files,
the frame `i` of `drawShimmerFrame` under the name `frame_%04d.png` of `i`, for
`i = 0, 1, ..., totalFrames - 1` in this order; every frame has the width and the
height of the padded image, and the names are pairwise distinct. -/
theorem GenerateSpoilerFrames_frames (P : Platform) (E : Env) (totalFrames : ℤ)
    (blurSigma dotDensity : ℚ) (dotSize : ℤ) (shimmerSpeed darkenPercent : ℚ) (src : Image)
    (hopen : E.openImage = some src) (hw : 0 ≤ src.w) (hh : 0 ≤ src.h)
    (hmk : E.mkdirOk = true)
    (hcheck : ¬ dotCount P (imagingBlur E (ensureEvenSize src) blurSigma) dotDensity < 1)
    (hcreate : ∀ i : ℕ, (i : ℤ) < totalFrames → E.createOk i = true)
    (hencode : ∀ i : ℕ, (i : ℤ) < totalFrames → E.encodeOk i = true)
    (htot : 0 ≤ totalFrames) :
    ∃ dots : List shimmerDot,
      (GenerateSpoilerFrames P E totalFrames blurSigma dotDensity dotSize shimmerSpeed
        darkenPercent).1 = Outcome.success ∧
      writtenFiles (GenerateSpoilerFrames P E totalFrames blurSigma dotDensity dotSize
          shimmerSpeed darkenPercent).2
        = (List.range totalFrames.toNat).map (fun i : ℕ => (frameName i,
            drawShimmerFrame P (imagingBlur E (ensureEvenSize src) blurSigma) dots i
              totalFrames dotSize shimmerSpeed darkenPercent)) ∧
      ((writtenFiles (GenerateSpoilerFrames P E totalFrames blurSigma dotDensity dotSize
          shimmerSpeed darkenPercent).2).length : ℤ) = totalFrames ∧
      (∀ f ∈ writtenFiles (GenerateSpoilerFrames P E totalFrames blurSigma dotDensity dotSize
          shimmerSpeed darkenPercent).2,
        f.2.w = (ensureEvenSize src).w ∧ f.2.h = (ensureEvenSize src).h) ∧
      ((writtenFiles (GenerateSpoilerFrames P E totalFrames blurSigma dotDensity dotSize
          shimmerSpeed darkenPercent).2).map Prod.fst).Nodup := by
  obtain ⟨hw1, hh1⟩ := ensureEvenSize_nonneg src hw hh
  have hc : 1 ≤ dotCount P (imagingBlur E (ensureEvenSize src) blurSigma) dotDensity :=
    not_lt.mp hcheck
  obtain ⟨hpw, hph⟩ := dims_pos_of_dotCount P (imagingBlur E (ensureEvenSize src) blurSigma)
    dotDensity hw1 hh1 hc
  obtain ⟨dots, r1, hd, -⟩ := generateDotsLoop_spec
    (imagingBlur E (ensureEvenSize src) blurSigma) 220 250 hpw hph (by norm_num)
    (by norm_num) (by norm_num)
    (dotCount P (imagingBlur E (ensureEvenSize src) blurSigma) dotDensity).toNat E.rng
  have hgen : generateShimmerDots (imagingBlur E (ensureEvenSize src) blurSigma)
      (dotCount P (imagingBlur E (ensureEvenSize src) blurSigma) dotDensity) 220 250 E.rng
      = some (dots, r1) := by
    unfold generateShimmerDots
    rw [if_neg (by omega), hd]
  have hrun := GenerateSpoilerFrames_unfold P E totalFrames blurSigma dotDensity dotSize
    shimmerSpeed darkenPercent src hopen hmk
  rw [if_neg hcheck, hgen] at hrun
  simp only at hrun
  obtain ⟨hs, hfiles⟩ := frameLoop_success P E (imagingBlur E (ensureEvenSize src) blurSigma)
    dots totalFrames dotSize shimmerSpeed darkenPercent totalFrames.toNat 0
    (fun j _ hj => ⟨hcreate j (by omega), hencode j (by omega)⟩)
  rw [← List.range_eq_range'] at hfiles
  refine ⟨dots, ?_, ?_, ?_, ?_, ?_⟩
  · rw [hrun]; exact hs
  · rw [hrun]; exact hfiles
  · rw [hrun, hfiles, List.length_map, List.length_range]
    exact Int.toNat_of_nonneg htot
  · intro f hf
    rw [hrun, hfiles] at hf
    obtain ⟨i, -, rfl⟩ := List.mem_map.mp hf
    exact drawShimmerFrame_dims P (imagingBlur E (ensureEvenSize src) blurSigma) dots i
      totalFrames dotSize shimmerSpeed darkenPercent
  · rw [hrun, hfiles, List.map_map]
    exact (List.nodup_range _).map (fun i j h => frameName_inj i j h)

theorem GenerateSpoilerFrames_frames_witness :
    (∃ dots : List shimmerDot,
      (GenerateSpoilerFrames examplePlatform exampleEnv 5 45 density004 6 9 darken03).1
        = Outcome.success ∧
      writtenFiles (GenerateSpoilerFrames examplePlatform exampleEnv 5 45 density004 6 9
          darken03).2
        = (List.range (5 : ℤ).toNat).map (fun i : ℕ => (frameName i,
            drawShimmerFrame examplePlatform
              (imagingBlur exampleEnv (ensureEvenSize ⟨101, 100, fun _ _ => RGBA.zero⟩) 45)
              dots i 5 6 9 darken03)) ∧
      ((writtenFiles (GenerateSpoilerFrames examplePlatform exampleEnv 5 45 density004 6 9
          darken03).2).length : ℤ) = 5 ∧
      (∀ f ∈ writtenFiles (GenerateSpoilerFrames examplePlatform exampleEnv 5 45 density004 6
          9 darken03).2,
        f.2.w = (ensureEvenSize ⟨101, 100, fun _ _ => RGBA.zero⟩).w ∧
        f.2.h = (ensureEvenSize ⟨101, 100, fun _ _ => RGBA.zero⟩).h) ∧
      ((writtenFiles (GenerateSpoilerFrames examplePlatform exampleEnv 5 45 density004 6 9
          darken03).2).map Prod.fst).Nodup) ∧
      (ensureEvenSize ⟨101, 100, fun _ _ => RGBA.zero⟩).w = 102 ∧
      (ensureEvenSize ⟨101, 100, fun _ _ => RGBA.zero⟩).h = 100 ∧
      (List.range 5).map frameName =
        ["frame_0000.png", "frame_0001.png", "frame_0002.png", "frame_0003.png",
          "frame_0004.png"] := by
  have hex := ensureEvenSize_example (fun _ _ => RGBA.zero)
  refine ⟨?_, hex.1, hex.2, frameName_example⟩
  exact GenerateSpoilerFrames_frames examplePlatform exampleEnv 5 45 density004 6 9 darken03
    ⟨101, 100, fun _ _ => RGBA.zero⟩ rfl (by show (0 : ℤ) ≤ 101; norm_num)
    (by show (0 : ℤ) ≤ 100; norm_num) rfl
    (by
      rw [dotCount_congr examplePlatform
        (imagingBlur exampleEnv (ensureEvenSize ⟨101, 100, fun _ _ => RGBA.zero⟩) 45)
        ⟨102, 100, fun _ _ => RGBA.zero⟩ density004 hex.1 hex.2, dotCount_example]
      norm_num)
    (fun _ _ => rfl) (fun _ _ => rfl) (by norm_num)

end Spoiler
